import Mathlib

/-
  Verification of the psg-rs PSG (AY-3-8910 / YM2149) emulator core.

  The Rust sources are shallowly embedded as follows: `f64` values are
  modelled as exact rationals (`ℚ`); machine integers (`u8`, `u16`, `u32`,
  `usize`) are modelled as `ℕ`, with an explicit `% 2^w` wherever the source
  performs arithmetic that could wrap; fixed-size arrays are modelled as
  total functions `ℕ → ℚ` updated with `Function.update`; the fallible
  constructor returns `Except Error PSG`.  All other public operations of
  the crate return plain values (never `Result`), and are embedded as total
  functions accordingly.
-/

set_option maxHeartbeats 1600000
set_option maxRecDepth 8000

namespace PsgSpec

/-- The single error kind of the crate (`Error` in `error.rs`). -/
inductive Error where
  | ClockRateTooHigh
deriving DecidableEq

/-- The two supported chip variants (`ChipType` in `lib.rs`). -/
inductive ChipType where
  | AY
  | YM
deriving DecidableEq

/-- Digital-to-analog amplitude conversion table for the AY-3-8910
(`AY_DAC_TABLE` in `lib.rs`). -/
def AY_DAC_TABLE : List ℚ :=
  [0.0,             0.0,             0.00999465934234, 0.00999465934234,
   0.0144502937362, 0.0144502937362, 0.0210574502174,  0.0210574502174,
   0.0307011520562, 0.0307011520562, 0.0455481803616,  0.0455481803616,
   0.0644998855573, 0.0644998855573, 0.107362478065,   0.107362478065,
   0.126588845655,  0.126588845655,  0.20498970016,    0.20498970016,
   0.292210269322,  0.292210269322,  0.372838941024,   0.372838941024,
   0.492530708782,  0.492530708782,  0.635324635691,   0.635324635691,
   0.805584802014,  0.805584802014,  1.0,              1.0]

/-- Digital-to-analog amplitude conversion table for the YM2149
(`YM_DAC_TABLE` in `lib.rs`). -/
def YM_DAC_TABLE : List ℚ :=
  [0.0,             0.0,             0.00465400167849, 0.00772106507973,
   0.0109559777218, 0.0139620050355, 0.0169985503929,  0.0200198367285,
   0.024368657969,  0.029694056611,  0.0350652323186,  0.0403906309606,
   0.0485389486534, 0.0583352407111, 0.0680552376593,  0.0777752346075,
   0.0925154497597, 0.111085679408,  0.129747463188,   0.148485542077,
   0.17666895552,   0.211551079576,  0.246387426566,   0.281101701381,
   0.333730067903,  0.400427252613,  0.467383840696,   0.53443198291,
   0.635172045472,  0.75800717174,   0.879926756695,   1.0]

/-- Table selection (`ChipType::log2lin_table` in `lib.rs`). -/
def ChipType.log2lin_table : ChipType → List ℚ
  | .AY => AY_DAC_TABLE
  | .YM => YM_DAC_TABLE

/-- Indexing into the selected 32-entry DAC table. -/
def ChipType.log2lin (t : ChipType) (i : ℕ) : ℚ :=
  t.log2lin_table.getD i 0

/-- One of the PSG's tone generator channels (`Channel` in `channel.rs`).
Fields `period` and `position` are `u16` in the source, `value` and
`amplitude` are `u8`, the flags are `bool`, and the pan factors are `f64`. -/
structure Channel where
  period : ℕ
  position : ℕ
  value : ℕ
  tone_off : Bool
  noise_off : Bool
  envelope_on : Bool
  amplitude : ℕ
  pan_left : ℚ
  pan_right : ℚ

/-- `Channel::new`. -/
def Channel.new : Channel where
  period := 1
  position := 0
  value := 0
  tone_off := true
  noise_off := true
  envelope_on := false
  amplitude := 0
  pan_left := 0.5
  pan_right := 0.5

/-- `Channel::render`: advance the square-wave oscillator by one chip tick
and return the new 1-bit value.  The `u16` increment of `position` carries
an explicit `% 2^16`. -/
def Channel.render (c : Channel) : Channel × ℕ :=
  let position := (c.position + 1) % 65536
  if c.period ≤ position then
    ({ c with position := 0, value := c.value ^^^ 1 }, c.value ^^^ 1)
  else
    ({ c with position := position }, c.value)

/-- `Channel::set_period`: mask to 12 bits, then clamp to at least 1.  The
`u16` argument is modelled by reducing the `ℕ` argument `% 2^16`. -/
def Channel.set_period (c : Channel) (period : ℕ) : Channel :=
  { c with period := max ((period % 65536) &&& 0x0fff) 1 }

/-- `Channel::set_period_msb` (argument is a `u8`). -/
def Channel.set_period_msb (c : Channel) (period : ℕ) : Channel :=
  { c with period := max ((c.period &&& 0x00ff) ||| (((period % 256) &&& 0x0f) <<< 8)) 1 }

/-- `Channel::set_period_lsb` (argument is a `u8`). -/
def Channel.set_period_lsb (c : Channel) (period : ℕ) : Channel :=
  { c with period := max ((c.period &&& 0x0f00) ||| (period % 256)) 1 }

/-- `Channel::set_amplitude`: mask to 4 bits. -/
def Channel.set_amplitude (c : Channel) (amplitude : ℕ) : Channel :=
  { c with amplitude := (amplitude % 256) &&& 0x0f }

/-- `Channel::set_envelope_enabled`. -/
def Channel.set_envelope_enabled (c : Channel) (enabled : Bool) : Channel :=
  { c with envelope_on := enabled }

/-- `Channel::set_amplitude_and_envelope_enabled`: bits 0..3 are the
amplitude, bit 4 the envelope-enable flag. -/
def Channel.set_amplitude_and_envelope_enabled (c : Channel) (v : ℕ) : Channel :=
  { c with
    amplitude := (v % 256) &&& 0x0f
    envelope_on := decide ((v % 256) &&& 0x10 ≠ 0) }

/-- `Channel::set_tone_disabled`. -/
def Channel.set_tone_disabled (c : Channel) (disabled : Bool) : Channel :=
  { c with tone_off := disabled }

/-- `Channel::set_noise_disabled`. -/
def Channel.set_noise_disabled (c : Channel) (disabled : Bool) : Channel :=
  { c with noise_off := disabled }

/-- `Channel::set_panning` with `equal_power = false`: `pan_left = 1 - b`,
`pan_right = b`.  (The `equal_power = true` branch takes square roots of
the two factors; it touches only the pan fields, which no invariant below
depends on, and is therefore not modelled over `ℚ`.) -/
def Channel.set_panning (c : Channel) (balance : ℚ) : Channel :=
  { c with pan_left := 1 - balance, pan_right := balance }

/-- One step of the Galois-form LFSR used by the noise generator: the
update `lsb = value & 1; value = (value >> 1) ^ (lsb ? 0x12000 : 0)` from
`NoiseGenerator::render` in `noise_generator.rs`. -/
def galoisStep (v : ℕ) : ℕ :=
  (v >>> 1) ^^^ (if v &&& 1 = 1 then 0x12000 else 0)

/-- The PSG's noise generator (`NoiseGenerator` in `noise_generator.rs`).
`period` and `counter` are `u8`, `value` is a `u32` holding 17 bits. -/
structure NoiseGenerator where
  period : ℕ
  counter : ℕ
  value : ℕ

/-- `NoiseGenerator::new`: seed `0x4001`, chosen so the Galois LFSR matches
Ayumi's Fibonacci LFSR started from 1. -/
def NoiseGenerator.new : NoiseGenerator where
  period := 1
  counter := 0
  value := 0x4001

/-- `NoiseGenerator::render`: advance the divided-by-2 period counter and,
when it expires, step the Galois LFSR; return the new 1-bit noise value.
The `u8` increment of `counter` carries an explicit `% 2^8`. -/
def NoiseGenerator.render (g : NoiseGenerator) : NoiseGenerator × ℕ :=
  let counter := (g.counter + 1) % 256
  if g.period * 2 ≤ counter then
    let value := galoisStep g.value
    ({ g with counter := 0, value := value }, value &&& 1)
  else
    ({ g with counter := counter }, g.value &&& 1)

/-- `NoiseGenerator::set_period`: mask to 5 bits, clamp to at least 1. -/
def NoiseGenerator.set_period (g : NoiseGenerator) (period : ℕ) : NoiseGenerator :=
  { g with period := max ((period % 256) &&& 0x1f) 1 }

/-- The shape of an envelope segment (`EnvelopeShape` in
`envelope_generator.rs`). -/
inductive EnvelopeShape where
  | slideDown
  | slideUp
  | holdTop
  | holdBottom
deriving DecidableEq

/-- The table of all 16 PSG envelope shapes (`ENVELOPE_TABLE`). -/
def ENVELOPE_TABLE : List (EnvelopeShape × EnvelopeShape) :=
  [(.slideDown, .holdBottom),
   (.slideDown, .holdBottom),
   (.slideDown, .holdBottom),
   (.slideDown, .holdBottom),
   (.slideUp,   .holdBottom),
   (.slideUp,   .holdBottom),
   (.slideUp,   .holdBottom),
   (.slideUp,   .holdBottom),
   (.slideDown, .slideDown),
   (.slideDown, .holdBottom),
   (.slideDown, .slideUp),
   (.slideDown, .holdTop),
   (.slideUp,   .slideUp),
   (.slideUp,   .holdTop),
   (.slideUp,   .slideDown),
   (.slideUp,   .holdBottom)]

/-- Lookup `ENVELOPE_TABLE[shape][segment]`. -/
def envShapeAt (shape segment : ℕ) : EnvelopeShape :=
  let row := ENVELOPE_TABLE.getD shape (.slideDown, .holdBottom)
  if segment = 0 then row.1 else row.2

/-- The PSG's envelope generator (`EnvelopeGenerator` in
`envelope_generator.rs`).  `position` and `period` are `u16`; `shape`,
`segment` and `value` are `u8`. -/
structure EnvelopeGenerator where
  position : ℕ
  period : ℕ
  shape : ℕ
  segment : ℕ
  value : ℕ

/-- `EnvelopeGenerator::new`. -/
def EnvelopeGenerator.new : EnvelopeGenerator where
  position := 0
  period := 1
  shape := 0
  segment := 0
  value := 0

/-- `EnvelopeGenerator::reset_segment`: re-seed `value` from the current
shape segment (31 when it starts high, 0 otherwise). -/
def EnvelopeGenerator.reset_segment (e : EnvelopeGenerator) : EnvelopeGenerator :=
  { e with
    value :=
      match envShapeAt e.shape e.segment with
      | .slideDown => 31
      | .holdTop => 31
      | _ => 0 }

/-- `EnvelopeGenerator::render`: advance the period counter and, when it
expires, run one step of the current shape segment; return the new 5-bit
envelope level.  The `u16` increment of `position` carries an explicit
`% 2^16`. -/
def EnvelopeGenerator.render (e : EnvelopeGenerator) : EnvelopeGenerator × ℕ :=
  let position := (e.position + 1) % 65536
  if e.period ≤ position then
    let e' := { e with position := 0 }
    match envShapeAt e'.shape e'.segment with
    | .slideDown =>
      if e'.value = 0 then
        let e'' := EnvelopeGenerator.reset_segment { e' with segment := e'.segment ^^^ 1 }
        (e'', e''.value)
      else
        ({ e' with value := e'.value - 1 }, e'.value - 1)
    | .slideUp =>
      if 31 ≤ e'.value then
        let e'' := EnvelopeGenerator.reset_segment { e' with segment := e'.segment ^^^ 1 }
        (e'', e''.value)
      else
        ({ e' with value := e'.value + 1 }, e'.value + 1)
    | _ => (e', e'.value)
  else
    ({ e with position := position }, e.value)

/-- `EnvelopeGenerator::set_period`: clamp to at least 1 (argument is a
`u16`). -/
def EnvelopeGenerator.set_period (e : EnvelopeGenerator) (period : ℕ) : EnvelopeGenerator :=
  { e with period := max (period % 65536) 1 }

/-- `EnvelopeGenerator::set_period_msb` (argument is a `u8`). -/
def EnvelopeGenerator.set_period_msb (e : EnvelopeGenerator) (period : ℕ) : EnvelopeGenerator :=
  { e with period := max ((e.period &&& 0x00ff) ||| (((period % 256) &&& 0xff) <<< 8)) 1 }

/-- `EnvelopeGenerator::set_period_lsb` (argument is a `u8`). -/
def EnvelopeGenerator.set_period_lsb (e : EnvelopeGenerator) (period : ℕ) : EnvelopeGenerator :=
  { e with period := max ((e.period &&& 0xff00) ||| (period % 256)) 1 }

/-- `EnvelopeGenerator::set_shape`: mask to 4 bits, reset position and
segment, and re-seed the value. -/
def EnvelopeGenerator.set_shape (e : EnvelopeGenerator) (shape : ℕ) : EnvelopeGenerator :=
  EnvelopeGenerator.reset_segment
    { e with shape := (shape % 256) &&& 0x0f, position := 0, segment := 0 }

/-- The 4-point parabolic interpolator (`Interpolator` in
`interpolator.rs`): four history samples and three cached coefficients. -/
structure Interpolator where
  y0 : ℚ
  y1 : ℚ
  y2 : ℚ
  y3 : ℚ
  c0 : ℚ
  c1 : ℚ
  c2 : ℚ

/-- `Interpolator::new`. -/
def Interpolator.new : Interpolator where
  y0 := 0
  y1 := 0
  y2 := 0
  y3 := 0
  c0 := 0
  c1 := 0
  c2 := 0

/-- `Interpolator::feed`: shift the history and cache the parabolic
coefficients. -/
def Interpolator.feed (ip : Interpolator) (input : ℚ) : Interpolator :=
  let y0 := ip.y1
  let y1 := ip.y2
  let y2 := ip.y3
  let y3 := input
  let dy := y2 - y0
  { y0 := y0, y1 := y1, y2 := y2, y3 := y3
    c0 := 0.5 * y1 + 0.25 * (y0 + y2)
    c1 := 0.5 * dy
    c2 := 0.25 * (y3 - y1 - dy) }

/-- `Interpolator::interpolate`. -/
def Interpolator.interpolate (ip : Interpolator) (x : ℚ) : ℚ :=
  (ip.c2 * x + ip.c1) * x + ip.c0

/-- The oversampling/decimation factor (`DECIMATE_FACTOR` in
`decimator.rs`). -/
def DECIMATE_FACTOR : ℕ := 8

/-- The FIR length (`FIR_SIZE` in `decimator.rs`). -/
def FIR_SIZE : ℕ := 192

/-- The 8x decimating windowed-sinc FIR filter (`Decimator` in
`decimator.rs`).  The ring buffer of `2 * FIR_SIZE` samples is modelled as
a total function on indices. -/
structure Decimator where
  buffer : ℕ → ℚ

/-- `Decimator::new`. -/
def Decimator.new : Decimator where
  buffer := fun _ => 0

/-- `Decimator::render`: evaluate the symmetric FIR over
`buffer[start .. start+192)` and copy the first 8 samples of the window to
its last 8 positions.  `rd k` reads `buffer[start + k]`. -/
def Decimator.render (d : Decimator) (start : ℕ) : Decimator × ℚ :=
  let rd := fun k => d.buffer (start + k)
  let result : ℚ :=
      -0.0000046183113992051936 * (rd 1 + rd 191)
      - 0.00001117761640887225 * (rd 2 + rd 190)
      - 0.000018610264502005432 * (rd 3 + rd 189)
      - 0.000025134586135631012 * (rd 4 + rd 188)
      - 0.000028494281690666197 * (rd 5 + rd 187)
      - 0.000026396828793275159 * (rd 6 + rd 186)
      - 0.000017094212558802156 * (rd 7 + rd 185)
      + 
0.000023798193576966866 * (rd 9 + rd 183)
      + 
0.000051281160242202183 * (rd 10 + rd 182)
      + 
0.00007762197826243427 * (rd 11 + rd 181)
      + 
0.000096759426664120416 * (rd 12 + rd 180)
      + 
0.00010240229300393402 * (rd 13 + rd 179)
      + 
0.000089344614218077106 * (rd 14 + rd 178)
      + 
0.000054875700118949183 * (rd 15 + rd 177)
      - 0.000069839082210680165 * (rd 17 + rd 175)
      - 0.0001447966132360757 * (rd 18 + rd 174)
      - 0.00021158452917708308 * (rd 19 + rd 173)
      - 0.00025535069106550544 * (rd 20 + rd 172)
      - 0.00026228714374322104 * (rd 21 + rd 171)
      - 0.00022258805927027799 * (rd 22 + rd 170)
      - 0.00013323230495695704 * (rd 23 + rd 169)
      + 
0.00016182578767055206 * (rd 25 + rd 167)
      + 
0.00032846175385096581 * (rd 26 + rd 166)
      + 
0.00047045611576184863 * (rd 27 + rd 165)
      + 
0.00055713851457530944 * (rd 28 + rd 164)
      + 
0.00056212565121518726 * (rd 29 + rd 163)
      + 
0.00046901918553962478 * (rd 30 + rd 162)
      + 
0.00027624866838952986 * (rd 31 + rd 161)
      - 0.00032564179486838622 * (rd 33 + rd 159)
      - 0.00065182310286710388 * (rd 34 + rd 158)
      - 0.00092127787309319298 * (rd 35 + rd 157)
      - 0.0010772534348943575 * (rd 36 + rd 156)
      - 0.0010737727700273478 * (rd 37 + rd 155)
      - 0.00088556645390392634 * (rd 38 + rd 154)
      - 0.00051581896090765534 * (rd 39 + rd 153)
      + 
0.00059548767193795277 * (rd 41 + rd 151)
      + 
0.0011803558710661009 * (rd 42 + rd 150)
      + 
0.0016527320270369871 * (rd 43 + rd 149)
      + 
0.0019152679330965555 * (rd 44 + rd 148)
      + 
0.0018927324805381538 * (rd 45 + rd 147)
      + 
0.0015481870327877937 * (rd 46 + rd 146)
      + 
0.00089470695834941306 * (rd 47 + rd 145)
      - 0.0010178225878206125 * (rd 49 + rd 143)
      - 0.0020037400552054292 * (rd 50 + rd 142)
      - 0.0027874356824117317 * (rd 51 + rd 141)
      - 0.003210329988021943 * (rd 52 + rd 140)
      - 0.0031540624117984395 * (rd 53 + rd 139)
      - 0.0025657163651900345 * (rd 54 + rd 138)
      - 0.0014750752642111449 * (rd 55 + rd 137)
      + 
0.0016624165446378462 * (rd 57 + rd 135)
      + 
0.0032591192839069179 * (rd 58 + rd 134)
      + 
0.0045165685815867747 * (rd 59 + rd 133)
      + 
0.0051838984346123896 * (rd 60 + rd 132)
      + 
0.0050774264697459933 * (rd 61 + rd 131)
      + 
0.0041192521414141585 * (rd 62 + rd 130)
      + 
0.0023628575417966491 * (rd 63 + rd 129)
      - 0.0026543507866759182 * (rd 65 + rd 127)
      - 0.0051990251084333425 * (rd 66 + rd 126)
      - 0.0072020238234656924 * (rd 67 + rd 125)
      - 0.0082672928192007358 * (rd 68 + rd 124)
      - 0.0081033739572956287 * (rd 69 + rd 123)
      - 0.006583111539570221 * (rd 70 + rd 122)
      - 0.0037839040415292386 * (rd 71 + rd 121)
      + 
0.0042781252851152507 * (rd 73 + rd 119)
      + 
0.0084176358598320178 * (rd 74 + rd 118)
      + 
0.01172566057463055 * (rd 75 + rd 117)
      + 
0.013550476647788672 * (rd 76 + rd 116)
      + 
0.013388189369997496 * (rd 77 + rd 115)
      + 
0.010979501242341259 * (rd 78 + rd 114)
      + 
0.006381274941685413 * (rd 79 + rd 113)
      - 0.007421229604153888 * (rd 81 + rd 111)
      - 0.01486456304340213 * (rd 82 + rd 110)
      - 0.021143584622178104 * (rd 83 + rd 109)
      - 0.02504275058758609 * (rd 84 + rd 108)
      - 0.025473530942547201 * (rd 85 + rd 107)
      - 0.021627310017882196 * (rd 86 + rd 106)
      - 0.013104323383225543 * (rd 87 + rd 105)
      + 
0.017065133989980476 * (rd 89 + rd 103)
      + 
0.036978919264451952 * (rd 90 + rd 102)
      + 
0.05823318062093958 * (rd 91 + rd 101)
      + 
0.079072012081405949 * (rd 92 + rd 100)
      + 
0.097675998716952317 * (rd 93 + rd 99)
      + 
0.11236045936950932 * (rd 94 + rd 98)
      + 
0.12176343577287731 * (rd 95 + rd 97)
      + 0.125 * rd 96
  let buffer' := fun i =>
    if start + (FIR_SIZE - DECIMATE_FACTOR) ≤ i ∧ i < start + FIR_SIZE then
      d.buffer (i - (FIR_SIZE - DECIMATE_FACTOR))
    else d.buffer i
  (⟨buffer'⟩, result)

/-- The length of the DC filter's moving-average window (the const-generic
default `S = 1024` of `DCFilter` in `dc_filter.rs`). -/
def DC_SIZE : ℕ := 1024

/-- The two-channel DC-offset elimination filter (`DCFilter` in
`dc_filter.rs`), with both ring buffers modelled as total functions. -/
structure DCFilter where
  left_sum : ℚ
  right_sum : ℚ
  left_delay : ℕ → ℚ
  right_delay : ℕ → ℚ
  index : ℕ

/-- `DCFilter::new`. -/
def DCFilter.new : DCFilter where
  left_sum := 0
  right_sum := 0
  left_delay := fun _ => 0
  right_delay := fun _ => 0
  index := 0

/-- `DCFilter::render`: update the running sums and ring buffers, advance
the AND-masked index, and return the inputs minus the window averages. -/
def DCFilter.render (f : DCFilter) (left right : ℚ) : DCFilter × (ℚ × ℚ) :=
  let left_sum := f.left_sum + (-(f.left_delay f.index) + left)
  let right_sum := f.right_sum + (-(f.right_delay f.index) + right)
  let left_delay := Function.update f.left_delay f.index left
  let right_delay := Function.update f.right_delay f.index right
  let index := (f.index + 1) &&& (DC_SIZE - 1)
  (⟨left_sum, right_sum, left_delay, right_delay, index⟩,
   (left - left_sum * (1 / (DC_SIZE : ℚ)), right - right_sum * (1 / (DC_SIZE : ℚ))))

/-- The full PSG chip state (`PSG` in `lib.rs`).  The three-channel array
is modelled as three named fields (in array order), and the
`log2lin_table` reference as the selected `ChipType`. -/
structure PSG where
  channelA : Channel
  channelB : Channel
  channelC : Channel
  noise_generator : NoiseGenerator
  envelope_generator : EnvelopeGenerator
  chip : ChipType
  x : ℚ
  step : ℚ
  left_interpolator : Interpolator
  right_interpolator : Interpolator
  left_decimator : Decimator
  right_decimator : Decimator
  decimator_index : ℕ
  dc_filter : DCFilter

/-- The successfully-constructed initial state of `PSG::new` for a given
accumulator step. -/
def psgInit (step : ℚ) : PSG where
  channelA := Channel.new
  channelB := Channel.new
  channelC := Channel.new
  noise_generator := NoiseGenerator.new
  envelope_generator := EnvelopeGenerator.new
  chip := ChipType.YM
  x := 0
  step := step
  left_interpolator := Interpolator.new
  right_interpolator := Interpolator.new
  left_decimator := Decimator.new
  right_decimator := Decimator.new
  decimator_index := 0
  dc_filter := DCFilter.new

/-- `PSG::new`: compute `step = clock_rate / (sample_rate * 8 *
DECIMATE_FACTOR)` and reject the construction when `step >= 1.0`. -/
def psgNew (clock_rate : ℚ) (sample_rate : ℕ) : Except Error PSG :=
  let step := clock_rate / ((sample_rate : ℚ) * 8 * (DECIMATE_FACTOR : ℚ))
  if 1 ≤ step then Except.error Error.ClockRateTooHigh
  else Except.ok (psgInit step)

/-- One channel's contribution inside the fold of `PSG::render_tick`:
render the oscillator, gate it against the shared noise bit, scale by the
envelope or the rebiased amplitude, run the result through the DAC table
and accumulate it into the panned stereo pair.  The `u8` multiplication
carries an explicit `% 2^8`. -/
def mixStep (table : ℕ → ℚ) (noise envelope : ℕ) (acc : ℚ × ℚ) (c : Channel) :
    Channel × (ℚ × ℚ) :=
  let r := c.render
  let level1 := (r.2 ||| c.tone_off.toNat) &&& (noise ||| c.noise_off.toNat)
  let level := (level1 * (if c.envelope_on then envelope else c.amplitude * 2 + 1)) % 256
  let amplitude := table level
  (r.1, (acc.1 + amplitude * c.pan_left, acc.2 + amplitude * c.pan_right))

/-- `PSG::render_tick`: evaluate the noise and envelope generators once,
then fold the three channels in order. -/
def PSG.renderTick (p : PSG) : PSG × (ℚ × ℚ) :=
  let ng := p.noise_generator.render
  let eg := p.envelope_generator.render
  let table := p.chip.log2lin
  let sa := mixStep table ng.2 eg.2 (0, 0) p.channelA
  let sb := mixStep table ng.2 eg.2 sa.2 p.channelB
  let sc := mixStep table ng.2 eg.2 sb.2 p.channelC
  ({ p with
      noise_generator := ng.1
      envelope_generator := eg.1
      channelA := sa.1
      channelB := sb.1
      channelC := sc.1 }, sc.2)

/-- One iteration of the oversampling loop in `PSG::render`: advance the
fractional accumulator, tick the chip when it crosses 1, and store the
interpolated values into both decimator buffers at `start + offset`. -/
def PSG.renderStep (start offset : ℕ) (p : PSG) : PSG :=
  let p1 := { p with x := p.x + p.step }
  let p2 :=
    if 1 ≤ p1.x then
      let p1' := { p1 with x := p1.x - 1 }
      let t := p1'.renderTick
      { t.1 with
        left_interpolator := t.1.left_interpolator.feed t.2.1
        right_interpolator := t.1.right_interpolator.feed t.2.2 }
    else p1
  { p2 with
    left_decimator :=
      ⟨Function.update p2.left_decimator.buffer (start + offset)
        (p2.left_interpolator.interpolate p2.x)⟩
    right_decimator :=
      ⟨Function.update p2.right_decimator.buffer (start + offset)
        (p2.right_interpolator.interpolate p2.x)⟩ }

/-- The descending-offset fill loop of `PSG::render`. -/
def PSG.renderLoop (start : ℕ) (p : PSG) : List ℕ → PSG
  | [] => p
  | o :: rest => PSG.renderLoop start (PSG.renderStep start o p) rest

/-- `PSG::render`: compute the decimator window start, advance
`decimator_index` modulo 23, run the 8 oversampling iterations with
offsets descending from 7 to 0, decimate both sides and run the result
through the DC filter. -/
def PSG.render (p : PSG) : PSG × (ℚ × ℚ) :=
  let decimator_start := FIR_SIZE - p.decimator_index * DECIMATE_FACTOR
  let p1 := { p with
    decimator_index := (p.decimator_index + 1) % (FIR_SIZE / DECIMATE_FACTOR - 1) }
  let p2 := PSG.renderLoop decimator_start p1 [7, 6, 5, 4, 3, 2, 1, 0]
  let ld := p2.left_decimator.render decimator_start
  let rd := p2.right_decimator.render decimator_start
  let dc := p2.dc_filter.render ld.2 rd.2
  ({ p2 with left_decimator := ld.1, right_decimator := rd.1, dc_filter := dc.1 }, dc.2)

/-- Read the channel array at an index below 3 (`PSG::channel`). -/
def PSG.getChannel (p : PSG) : Fin 3 → Channel
  | 0 => p.channelA
  | 1 => p.channelB
  | 2 => p.channelC

/-- Apply a mutation to the channel at an index below 3
(`PSG::channel_mut`). -/
def PSG.updateChannel (p : PSG) (i : Fin 3) (f : Channel → Channel) : PSG :=
  match i with
  | 0 => { p with channelA := f p.channelA }
  | 1 => { p with channelB := f p.channelB }
  | 2 => { p with channelC := f p.channelC }

/-- `PSG::set_chip_type`. -/
def PSG.set_chip_type (p : PSG) (t : ChipType) : PSG :=
  { p with chip := t }

/-- `PSG::set_tone_period`. -/
def PSG.set_tone_period (p : PSG) (ch : Fin 3) (period : ℕ) : PSG :=
  p.updateChannel ch (fun c => c.set_period period)

/-- `PSG::set_amplitude`. -/
def PSG.set_amplitude (p : PSG) (ch : Fin 3) (amplitude : ℕ) : PSG :=
  p.updateChannel ch (fun c => c.set_amplitude amplitude)

/-- `PSG::set_tone_disabled`. -/
def PSG.set_tone_disabled (p : PSG) (ch : Fin 3) (d : Bool) : PSG :=
  p.updateChannel ch (fun c => c.set_tone_disabled d)

/-- `PSG::set_noise_disabled`. -/
def PSG.set_noise_disabled (p : PSG) (ch : Fin 3) (d : Bool) : PSG :=
  p.updateChannel ch (fun c => c.set_noise_disabled d)

/-- `PSG::set_envelope_enabled`. -/
def PSG.set_envelope_enabled (p : PSG) (ch : Fin 3) (e : Bool) : PSG :=
  p.updateChannel ch (fun c => c.set_envelope_enabled e)

/-- `PSG::set_noise_period`. -/
def PSG.set_noise_period (p : PSG) (period : ℕ) : PSG :=
  { p with noise_generator := p.noise_generator.set_period period }

/-- `PSG::set_mixer`: distribute the six low bits of the mixer register
over the tone/noise disable flags (GPIO bits 6 and 7 are ignored). -/
def PSG.set_mixer (p : PSG) (mixer : ℕ) : PSG :=
  let m := mixer % 256
  let p := p.updateChannel 0 (fun c => c.set_tone_disabled (decide (m &&& 0x01 ≠ 0)))
  let p := p.updateChannel 1 (fun c => c.set_tone_disabled (decide (m &&& 0x02 ≠ 0)))
  let p := p.updateChannel 2 (fun c => c.set_tone_disabled (decide (m &&& 0x04 ≠ 0)))
  let p := p.updateChannel 0 (fun c => c.set_noise_disabled (decide (m &&& 0x08 ≠ 0)))
  let p := p.updateChannel 1 (fun c => c.set_noise_disabled (decide (m &&& 0x10 ≠ 0)))
  let p := p.updateChannel 2 (fun c => c.set_noise_disabled (decide (m &&& 0x20 ≠ 0)))
  p

/-- `PSG::set_envelope_period`. -/
def PSG.set_envelope_period (p : PSG) (period : ℕ) : PSG :=
  { p with envelope_generator := p.envelope_generator.set_period period }

/-- `PSG::set_envelope_shape`. -/
def PSG.set_envelope_shape (p : PSG) (shape : ℕ) : PSG :=
  { p with envelope_generator := p.envelope_generator.set_shape shape }

/-- `PSG::set_register`: the address/data write shim.  Registers 14 and 15
(GPIO) and numbers above 15 are ignored. -/
def PSG.set_register (p : PSG) (register v : ℕ) : PSG :=
  match register with
  | 0 => p.updateChannel 0 (fun c => c.set_period_lsb v)
  | 1 => p.updateChannel 0 (fun c => c.set_period_msb v)
  | 2 => p.updateChannel 1 (fun c => c.set_period_lsb v)
  | 3 => p.updateChannel 1 (fun c => c.set_period_msb v)
  | 4 => p.updateChannel 2 (fun c => c.set_period_lsb v)
  | 5 => p.updateChannel 2 (fun c => c.set_period_msb v)
  | 6 => { p with noise_generator := p.noise_generator.set_period v }
  | 7 => p.set_mixer v
  | 8 => p.updateChannel 0 (fun c => c.set_amplitude_and_envelope_enabled v)
  | 9 => p.updateChannel 1 (fun c => c.set_amplitude_and_envelope_enabled v)
  | 10 => p.updateChannel 2 (fun c => c.set_amplitude_and_envelope_enabled v)
  | 11 => { p with envelope_generator := p.envelope_generator.set_period_lsb v }
  | 12 => { p with envelope_generator := p.envelope_generator.set_period_msb v }
  | 13 => { p with envelope_generator := p.envelope_generator.set_shape v }
  | _ => p

/-- The public mutating operations of a constructed PSG: register writes,
the accessor-based setters, and `render` (whose returned frame is ignored
here).  The `equal_power = true` variant of `set_panning` only changes the
two pan factors, which none of the invariants below mention. -/
inductive Op where
  | render
  | setRegister (r v : ℕ)
  | setTonePeriod (ch : Fin 3) (period : ℕ)
  | setAmplitude (ch : Fin 3) (amplitude : ℕ)
  | setToneDisabled (ch : Fin 3) (d : Bool)
  | setNoiseDisabled (ch : Fin 3) (d : Bool)
  | setEnvelopeEnabled (ch : Fin 3) (e : Bool)
  | setNoisePeriod (period : ℕ)
  | setMixer (m : ℕ)
  | setEnvelopePeriod (period : ℕ)
  | setEnvelopeShape (shape : ℕ)
  | setChipType (t : ChipType)
  | chanSetPeriod (ch : Fin 3) (period : ℕ)
  | chanSetPeriodMsb (ch : Fin 3) (v : ℕ)
  | chanSetPeriodLsb (ch : Fin 3) (v : ℕ)
  | chanSetAmplitudeAndEnvelopeEnabled (ch : Fin 3) (v : ℕ)
  | chanSetPanning (ch : Fin 3) (balance : ℚ)
  | envSetPeriodMsb (v : ℕ)
  | envSetPeriodLsb (v : ℕ)

/-- Apply one public operation to a PSG. -/
def applyOp (p : PSG) : Op → PSG
  | .render => p.render.1
  | .setRegister r v => p.set_register r v
  | .setTonePeriod ch period => p.set_tone_period ch period
  | .setAmplitude ch amplitude => p.set_amplitude ch amplitude
  | .setToneDisabled ch d => p.set_tone_disabled ch d
  | .setNoiseDisabled ch d => p.set_noise_disabled ch d
  | .setEnvelopeEnabled ch e => p.set_envelope_enabled ch e
  | .setNoisePeriod period => p.set_noise_period period
  | .setMixer m => p.set_mixer m
  | .setEnvelopePeriod period => p.set_envelope_period period
  | .setEnvelopeShape shape => p.set_envelope_shape shape
  | .setChipType t => p.set_chip_type t
  | .chanSetPeriod ch period => p.updateChannel ch (fun c => c.set_period period)
  | .chanSetPeriodMsb ch v => p.updateChannel ch (fun c => c.set_period_msb v)
  | .chanSetPeriodLsb ch v => p.updateChannel ch (fun c => c.set_period_lsb v)
  | .chanSetAmplitudeAndEnvelopeEnabled ch v =>
      p.updateChannel ch (fun c => c.set_amplitude_and_envelope_enabled v)
  | .chanSetPanning ch balance => p.updateChannel ch (fun c => c.set_panning balance)
  | .envSetPeriodMsb v => { p with envelope_generator := p.envelope_generator.set_period_msb v }
  | .envSetPeriodLsb v => { p with envelope_generator := p.envelope_generator.set_period_lsb v }

/-- The state reached from a constructed PSG by a sequence of public
operations. -/
def psgRun (p : PSG) (ops : List Op) : PSG :=
  ops.foldl applyOp p

/-- The claim-side 5-bit level of one channel in one chip tick:
`g * (envelope_on ? envelope : amplitude * 2 + 1)` with
`g = (t OR tone_off) AND (noise OR noise_off)`. -/
def gatedLevel (c : Channel) (t noise envelope : ℕ) : ℕ :=
  ((t ||| c.tone_off.toNat) &&& (noise ||| c.noise_off.toNat)) *
    (if c.envelope_on then envelope else c.amplitude * 2 + 1)

/-- The claim-side description of one chip tick: evaluate the noise
generator exactly once and the envelope generator exactly once, advance
each oscillator, and sum `DAC[gatedLevel]` scaled by each channel's pan
pair. -/
def PSG.renderTickSpec (p : PSG) : PSG × (ℚ × ℚ) :=
  let ng := p.noise_generator.render
  let eg := p.envelope_generator.render
  let ra := p.channelA.render
  let rb := p.channelB.render
  let rc := p.channelC.render
  let da := p.chip.log2lin (gatedLevel p.channelA ra.2 ng.2 eg.2)
  let db := p.chip.log2lin (gatedLevel p.channelB rb.2 ng.2 eg.2)
  let dc := p.chip.log2lin (gatedLevel p.channelC rc.2 ng.2 eg.2)
  ({ p with
      noise_generator := ng.1
      envelope_generator := eg.1
      channelA := ra.1
      channelB := rb.1
      channelC := rc.1 },
   (da * p.channelA.pan_left + db * p.channelB.pan_left + dc * p.channelC.pan_left,
    da * p.channelA.pan_right + db * p.channelB.pan_right + dc * p.channelC.pan_right))

/-- One step of the Fibonacci-form LFSR with the same taps as the Galois
register of `noise_generator.rs`: the 17-bit register shifts right, bit 0
is the output, and the feedback bit `(v XOR (v >> 3)) AND 1` enters at bit
16.  (Read from the output end, the feedback taps sit at bits 16 - 16 = 0
and 16 - 13 = 3, the mirror image of the Galois mask `0x12000`; this is
the reference Fibonacci LFSR of the Ayumi implementation, started from 1,
that the seed `0x4001` is documented to reproduce.) -/
def fibonacciStep (v : ℕ) : ℕ :=
  (v >>> 1) ||| (((v ^^^ (v >>> 3)) &&& 1) <<< 16)

/-- The Galois LFSR state sequence from the implementation seed `0x4001`. -/
def galoisSeq : ℕ → ℕ
  | 0 => 0x4001
  | n + 1 => galoisStep (galoisSeq n)

/-- The Fibonacci LFSR state sequence from seed 1. -/
def fibonacciSeq : ℕ → ℕ
  | 0 => 1
  | n + 1 => fibonacciStep (fibonacciSeq n)

section Claims

/-- Helper: the denominator written by `PSG::new` equals `sample_rate * 64`. -/
theorem sample_rate_denom (sample_rate : ℕ) :
    (sample_rate : ℚ) * 8 * (DECIMATE_FACTOR : ℚ) = (sample_rate : ℚ) * 64 := by
  norm_num [DECIMATE_FACTOR]
  ring

/-- C1: `PSG::new(clock_rate, sample_rate)` fails with `ClockRateTooHigh`
exactly when `clock_rate / (sample_rate * 64) >= 1.0`, and on success the
constructed PSG's accumulator step equals `clock_rate / (sample_rate *
64)`.  All other operations of the crate are embedded as total functions
(their Rust signatures return plain values, never `Result`), so
construction is the only fallible operation. -/
theorem c1_construction_predicate (clock_rate : ℚ) (sample_rate : ℕ) :
    (psgNew clock_rate sample_rate = Except.error Error.ClockRateTooHigh ↔
      1 ≤ clock_rate / ((sample_rate : ℚ) * 64)) ∧
    (∀ p : PSG, psgNew clock_rate sample_rate = Except.ok p →
      p.step = clock_rate / ((sample_rate : ℚ) * 64)) := by
  unfold psgNew
  rw [sample_rate_denom]
  by_cases h : 1 ≤ clock_rate / ((sample_rate : ℚ) * 64)
  · rw [if_pos h]
    exact ⟨by simp [h], fun p hp => by cases hp⟩
  · rw [if_neg h]
    refine ⟨by simp [h], fun p hp => ?_⟩
    cases hp
    rfl

/-- Witness for C1 at `clock_rate = 1`, `sample_rate = 1`. -/
theorem c1_construction_predicate_witness :
    (psgInit ((1 : ℚ) / ((1 : ℚ) * 8 * (DECIMATE_FACTOR : ℚ)))).step =
      1 / ((1 : ℚ) * 64) := by
  refine (c1_construction_predicate 1 1).2 _ ?_
  unfold psgNew
  norm_num [DECIMATE_FACTOR]

/-- C4 counterexample: contrary to scenario S5 of the spec,
`PSG::new(5_644_799.0, 44100)` does not succeed: the step is
`5644799 / (44100 * 64) ≈ 2.0003 ≥ 1`, so construction returns
`ClockRateTooHigh` (the crate's doc-comment bound of `128 *
sample_rate` is off by a factor of two from the coded bound `64 *
sample_rate`). -/
theorem c4_counterexample :
    psgNew 5644799 44100 = Except.error Error.ClockRateTooHigh := by
  unfold psgNew
  rw [if_pos (by norm_num [DECIMATE_FACTOR])]

/-- C4 amended: `PSG::new(5_644_801.0, 44100)` and
`PSG::new(5_644_799.0, 44100)` both return `ClockRateTooHigh`, because the
coded rejection bound is `64 * 44100 = 2_822_400`; a clock rate just below
that bound, such as `2_822_399.0`, succeeds. -/
theorem c4_clock_rate_bounds :
    psgNew 5644801 44100 = Except.error Error.ClockRateTooHigh ∧
    psgNew 5644799 44100 = Except.error Error.ClockRateTooHigh ∧
    psgNew 2822399 44100 =
      Except.ok (psgInit (2822399 / (((44100 : ℕ) : ℚ) * 8 * (DECIMATE_FACTOR : ℚ)))) := by
  refine ⟨?_, ?_, ?_⟩ <;> unfold psgNew
  · rw [if_pos (by norm_num [DECIMATE_FACTOR])]
  · rw [if_pos (by norm_num [DECIMATE_FACTOR])]
  · rw [if_neg (by norm_num [DECIMATE_FACTOR])]

/-- C6 counterexample: the YM DAC table does not hold 32 pairwise-distinct
(hence not 32 strictly increasing) levels: its entries at indices 0 and 1
are both exactly 0. -/
theorem c6_counterexample :
    YM_DAC_TABLE.getD 0 0 = YM_DAC_TABLE.getD 1 0 ∧
    ¬ List.Pairwise (fun a b => a ≠ b) YM_DAC_TABLE := by
  constructor
  · norm_num [YM_DAC_TABLE]
  · intro h
    rw [YM_DAC_TABLE, List.pairwise_cons] at h
    exact h.1 0.0 (List.mem_cons_self _ _) rfl

/-- C6 amended: the AY DAC table holds 16 distinct (strictly increasing)
levels, each duplicated at consecutive index pairs, with the mute entries
at indices 0 and 1 exactly 0; the YM DAC table is monotonically
nondecreasing with 31 distinct, strictly increasing levels from index 1 on
(indices 0 and 1 both hold exactly 0, so only 31 of its 32 entries are
distinct), and its entry at index 31 is exactly 1.0; all entries of both
tables lie in `[0, 1]`. -/
theorem c6_dac_tables :
    (∀ i < 16, AY_DAC_TABLE.getD (2 * i) 0 = AY_DAC_TABLE.getD (2 * i + 1) 0) ∧
    List.Chain' (fun a b => a < b)
      [AY_DAC_TABLE.getD 0 0, AY_DAC_TABLE.getD 2 0, AY_DAC_TABLE.getD 4 0,
       AY_DAC_TABLE.getD 6 0, AY_DAC_TABLE.getD 8 0, AY_DAC_TABLE.getD 10 0,
       AY_DAC_TABLE.getD 12 0, AY_DAC_TABLE.getD 14 0, AY_DAC_TABLE.getD 16 0,
       AY_DAC_TABLE.getD 18 0, AY_DAC_TABLE.getD 20 0, AY_DAC_TABLE.getD 22 0,
       AY_DAC_TABLE.getD 24 0, AY_DAC_TABLE.getD 26 0, AY_DAC_TABLE.getD 28 0,
       AY_DAC_TABLE.getD 30 0] ∧
    AY_DAC_TABLE.getD 0 0 = 0 ∧ AY_DAC_TABLE.getD 1 0 = 0 ∧
    YM_DAC_TABLE.getD 0 0 = 0 ∧ YM_DAC_TABLE.getD 1 0 = 0 ∧
    YM_DAC_TABLE.getD 31 0 = 1 ∧
    List.Chain' (fun a b => a ≤ b) YM_DAC_TABLE ∧
    List.Chain' (fun a b => a < b) (YM_DAC_TABLE.drop 1) ∧
    (∀ q ∈ AY_DAC_TABLE, 0 ≤ q ∧ q ≤ 1) ∧
    (∀ q ∈ YM_DAC_TABLE, 0 ≤ q ∧ q ≤ 1) := by
  refine ⟨?_, ?_, ?_, ?_, ?_, ?_, ?_, ?_, ?_, ?_, ?_⟩
  · intro i hi
    interval_cases i <;> norm_num [AY_DAC_TABLE]
  · norm_num [AY_DAC_TABLE, List.chain'_cons, List.chain'_singleton]
  · norm_num [AY_DAC_TABLE]
  · norm_num [AY_DAC_TABLE]
  · norm_num [YM_DAC_TABLE]
  · norm_num [YM_DAC_TABLE]
  · norm_num [YM_DAC_TABLE]
  · norm_num [YM_DAC_TABLE, List.chain'_cons, List.chain'_singleton]
  · norm_num [YM_DAC_TABLE, List.chain'_cons, List.chain'_singleton]
  · norm_num [AY_DAC_TABLE, List.forall_mem_cons]
  · norm_num [YM_DAC_TABLE, List.forall_mem_cons]

/-- Witness for C6 at the first duplicated AY pair. -/
theorem c6_dac_tables_witness :
    AY_DAC_TABLE.getD (2 * 0) 0 = AY_DAC_TABLE.getD (2 * 0 + 1) 0 :=
  c6_dac_tables.1 0 (by norm_num)

/-- C10: the parabolic interpolator reproduces constants exactly: after
four consecutive feeds of the same value `v`, from any starting state,
`interpolate x` returns exactly `v` for every `x` in `[0, 1]`. -/
theorem c10_interpolator_constant (ip : Interpolator) (v x : ℚ)
    (h0 : 0 ≤ x) (h1 : x ≤ 1) :
    ((((ip.feed v).feed v).feed v).feed v).interpolate x = v := by
  simp only [Interpolator.feed, Interpolator.interpolate]
  ring

/-- Witness for C10 at `v = 3`, `x = 1/2`, starting from the fresh
interpolator. -/
theorem c10_interpolator_constant_witness :
    (0 : ℚ) ≤ 1 / 2 ∧ (1 : ℚ) / 2 ≤ 1 ∧
    ((((Interpolator.new.feed 3).feed 3).feed 3).feed 3).interpolate (1 / 2) = 3 :=
  ⟨by norm_num, by norm_num,
    c10_interpolator_constant Interpolator.new 3 (1 / 2) (by norm_num) (by norm_num)⟩


/-- Helper: the noise generator always returns a 1-bit value. -/
theorem noise_render_le_one (g : NoiseGenerator) : g.render.2 ≤ 1 := by
  unfold NoiseGenerator.render
  simp only []
  split
  · exact Nat.and_le_right
  · exact Nat.and_le_right

/-- Helper: the envelope generator returns a 5-bit value whenever its
stored value is 5-bit. -/
theorem reset_segment_value_le (e : EnvelopeGenerator) : e.reset_segment.value ≤ 31 := by
  unfold EnvelopeGenerator.reset_segment
  split <;> simp

/-- Helper: the envelope generator returns a 5-bit value whenever its
stored value is 5-bit. -/
theorem envelope_render_le (e : EnvelopeGenerator) (h : e.value ≤ 31) :
    e.render.2 ≤ 31 := by
  unfold EnvelopeGenerator.render
  simp only []
  split
  · split
    · split
      · exact reset_segment_value_le _
      · simp only []
        omega
    · split
      · exact reset_segment_value_le _
      · simp only []
        omega
    · exact h
  · exact h

/-- Helper: the gate bit of one channel is at most 1 whenever the shared
noise bit is. -/
theorem gate_le_one (t noise a b : ℕ) (hn : noise ≤ 1) (hb : b ≤ 1) :
    (t ||| a) &&& (noise ||| b) ≤ 1 := by
  have hlt : noise ||| b < 2 ^ 1 := Nat.or_lt_two_pow (by omega) (by omega)
  calc (t ||| a) &&& (noise ||| b) ≤ noise ||| b := Nat.and_le_right
    _ ≤ 1 := by omega

/-- Helper: one fold step of `PSG::render_tick` equals the claim-side
formula when the amplitude is 4-bit and the envelope level 5-bit (so the
`u8` product cannot wrap). -/
theorem mixStep_eq_spec (table : ℕ → ℚ) (noise envelope : ℕ) (acc : ℚ × ℚ)
    (c : Channel) (hn : noise ≤ 1) (ha : c.amplitude ≤ 15) (he : envelope ≤ 31) :
    mixStep table noise envelope acc c =
      (c.render.1,
       (acc.1 + table (gatedLevel c c.render.2 noise envelope) * c.pan_left,
        acc.2 + table (gatedLevel c c.render.2 noise envelope) * c.pan_right)) := by
  unfold mixStep gatedLevel
  simp only []
  have h1 : (c.render.2 ||| c.tone_off.toNat) &&& (noise ||| c.noise_off.toNat) ≤ 1 :=
    gate_le_one _ _ _ _ hn (Bool.toNat_le c.noise_off)
  have h2 : (if c.envelope_on then envelope else c.amplitude * 2 + 1) ≤ 31 := by
    split <;> omega
  rw [Nat.mod_eq_of_lt (by nlinarith)]

/-- C2: one call to `PSG::render_tick` returns exactly the stereo pair
obtained by evaluating the noise generator once and the envelope generator
once, and summing `DAC[g * (envelope_on ? envelope : amplitude * 2 + 1)]`
scaled by `(pan_left, pan_right)` over the three channels, where
`g = (t OR tone_off) AND (noise OR noise_off)` and the noise bit is shared
by all three channels.  The hypotheses — 4-bit amplitudes and a 5-bit
stored envelope value — hold in every constructible state (see the C3
reachability invariant) and ensure the `u8` level product cannot wrap. -/
theorem c2_render_tick_formula (p : PSG)
    (hA : p.channelA.amplitude ≤ 15) (hB : p.channelB.amplitude ≤ 15)
    (hC : p.channelC.amplitude ≤ 15) (hE : p.envelope_generator.value ≤ 31) :
    p.renderTick = p.renderTickSpec := by
  have hn : p.noise_generator.render.2 ≤ 1 := noise_render_le_one _
  have he : p.envelope_generator.render.2 ≤ 31 := envelope_render_le _ hE
  unfold PSG.renderTick PSG.renderTickSpec
  simp only []
  rw [mixStep_eq_spec _ _ _ _ _ hn hA he, mixStep_eq_spec _ _ _ _ _ hn hB he,
    mixStep_eq_spec _ _ _ _ _ hn hC he]
  simp only [zero_add, add_assoc]

/-- Witness for C2 at the freshly constructed state. -/
theorem c2_render_tick_formula_witness :
    (psgInit 0).renderTick = (psgInit 0).renderTickSpec :=
  c2_render_tick_formula (psgInit 0) (by norm_num [psgInit, Channel.new])
    (by norm_num [psgInit, Channel.new]) (by norm_num [psgInit, Channel.new])
    (by norm_num [psgInit, EnvelopeGenerator.new])



/-- Helper: shifting left distributes over xor. -/
theorem shiftLeft_xor_distrib (x y n : ℕ) : (x ^^^ y) <<< n = x <<< n ^^^ y <<< n := by
  apply Nat.eq_of_testBit_eq
  intro i
  simp [Nat.testBit_shiftLeft, Nat.testBit_xor, Bool.and_xor_distrib_left]

/-- Helper: shifting right distributes over xor. -/
theorem shiftRight_xor_distrib (x y n : ℕ) : (x ^^^ y) >>> n = x >>> n ^^^ y >>> n := by
  apply Nat.eq_of_testBit_eq
  intro i
  simp [Nat.testBit_shiftRight, Nat.testBit_xor]

/-- Helper: left-commutativity of xor on `ℕ`. -/
theorem xor_left_comm (a b c : ℕ) : a ^^^ (b ^^^ c) = b ^^^ (a ^^^ c) := by
  rw [← Nat.xor_assoc, Nat.xor_comm a b, Nat.xor_assoc]

/-- Helper: the Galois LFSR update is linear over GF(2). -/
theorem galoisStep_linear (a b : ℕ) :
    galoisStep (a ^^^ b) = galoisStep a ^^^ galoisStep b := by
  unfold galoisStep
  rw [shiftRight_xor_distrib, Nat.and_xor_distrib_right]
  have ha : a &&& 1 ≤ 1 := Nat.and_le_right
  have hb : b &&& 1 ≤ 1 := Nat.and_le_right
  have ha' : a &&& 1 = 0 ∨ a &&& 1 = 1 := by omega
  have hb' : b &&& 1 = 0 ∨ b &&& 1 = 1 := by omega
  rcases ha' with h1 | h1 <;> rcases hb' with h2 | h2 <;> rw [h1, h2] <;>
    simp [Nat.xor_assoc, Nat.xor_comm, xor_left_comm]

/-- The xor-form of the Fibonacci step: because the shifted register has
bit 16 clear, the `|||` of `fibonacciStep` is a disjoint union and can be
written as a xor. -/
def fibonacciStepX (v : ℕ) : ℕ :=
  (v >>> 1) ^^^ (((v ^^^ (v >>> 3)) &&& 1) <<< 16)

/-- Helper: on 17-bit states the Fibonacci step agrees with its xor-form. -/
theorem fibonacciStep_eq_xor (v : ℕ) (h : v < 2 ^ 17) :
    fibonacciStep v = fibonacciStepX v := by
  unfold fibonacciStep fibonacciStepX
  apply Nat.eq_of_testBit_eq
  intro i
  rcases Nat.lt_or_ge i 16 with hi | hi
  · simp [Nat.testBit_or, Nat.testBit_xor, Nat.testBit_shiftLeft, Nat.not_le.mpr hi]
  · have hbit : v.testBit (1 + i) = false := by
      apply Nat.testBit_lt_two_pow
      calc v < 2 ^ 17 := h
        _ ≤ 2 ^ (1 + i) := Nat.pow_le_pow_right (by norm_num) (by omega)
    simp [Nat.testBit_or, Nat.testBit_xor, Nat.testBit_shiftRight, Nat.testBit_shiftLeft, hbit]

/-- Helper: the xor-form Fibonacci update is linear over GF(2). -/
theorem fibonacciStepX_linear (a b : ℕ) :
    fibonacciStepX (a ^^^ b) = fibonacciStepX a ^^^ fibonacciStepX b := by
  unfold fibonacciStepX
  rw [show (a ^^^ b) >>> 3 = a >>> 3 ^^^ b >>> 3 from shiftRight_xor_distrib a b 3]
  rw [show (a ^^^ b) ^^^ (a >>> 3 ^^^ b >>> 3) = (a ^^^ a >>> 3) ^^^ (b ^^^ b >>> 3) by
    simp [Nat.xor_assoc, Nat.xor_comm, xor_left_comm]]
  rw [Nat.and_xor_distrib_right, shiftLeft_xor_distrib, shiftRight_xor_distrib]
  simp [Nat.xor_assoc, Nat.xor_comm, xor_left_comm]

/-- The state conjugacy between the two LFSR forms: xor the three low bits
into bits 14, 15, 16.  It maps the Fibonacci state sequence onto the
Galois state sequence and preserves the output bit. -/
def phiMap (v : ℕ) : ℕ :=
  v ^^^ ((v &&& 7) <<< 14)

/-- Helper: the conjugacy is linear over GF(2). -/
theorem phiMap_linear (a b : ℕ) : phiMap (a ^^^ b) = phiMap a ^^^ phiMap b := by
  unfold phiMap
  rw [Nat.and_xor_distrib_right, shiftLeft_xor_distrib]
  simp [Nat.xor_assoc, Nat.xor_comm, xor_left_comm]

/-- Helper: the conjugacy preserves the output bit (bit 0). -/
theorem phiMap_bit0 (v : ℕ) : phiMap v &&& 1 = v &&& 1 := by
  unfold phiMap
  rw [Nat.and_xor_distrib_right]
  have h : ((v &&& 7) <<< 14) &&& 1 = 0 := by
    rw [Nat.and_one_is_mod, Nat.shiftLeft_eq]
    omega
  rw [h, Nat.xor_zero]

/-- Helper: splitting a number at bit `n` is a xor decomposition. -/
theorem xor_split (n v : ℕ) : v % 2 ^ n ^^^ 2 ^ n * (v / 2 ^ n) = v := by
  apply Nat.eq_of_testBit_eq
  intro i
  rw [Nat.testBit_xor, Nat.testBit_mod_two_pow]
  rw [show 2 ^ n * (v / 2 ^ n) = (v / 2 ^ n) <<< n by rw [Nat.shiftLeft_eq]; ring]
  rw [Nat.testBit_shiftLeft, ← Nat.shiftRight_eq_div_pow, Nat.testBit_shiftRight]
  by_cases hlt : i < n
  · simp [hlt, Nat.not_le.mpr hlt]
  · have hn : n ≤ i := Nat.not_lt.mp hlt
    simp [hlt, hn, Nat.add_sub_cancel' hn]

/-- Helper: a property of naturals that holds at 0 and at the first `n`
powers of two and is closed under xor holds below `2 ^ n`. -/
theorem xor_span (P : ℕ → Prop) (h0 : P 0)
    (hx : ∀ a b, P a → P b → P (a ^^^ b)) :
    ∀ n, (∀ j < n, P (2 ^ j)) → ∀ v, v < 2 ^ n → P v := by
  intro n
  induction n with
  | zero =>
    intro _ v hv
    have hv0 : v = 0 := by
      have h1 : (2 : ℕ) ^ 0 = 1 := by norm_num
      omega
    rw [hv0]
    exact h0
  | succ n ih =>
    intro hb v hv
    have hlo : P (v % 2 ^ n) :=
      ih (fun j hj => hb j (by omega)) _ (Nat.mod_lt _ (by positivity))
    have h2 : v < 2 ^ n * 2 := by
      rw [← pow_succ]
      exact hv
    have hq : v / 2 ^ n < 2 := Nat.div_lt_of_lt_mul h2
    have hhi : P (2 ^ n * (v / 2 ^ n)) := by
      generalize hdq : v / 2 ^ n = q at hq ⊢
      rcases (by omega : q = 0 ∨ q = 1) with h | h
      · rw [h, mul_zero]
        exact h0
      · rw [h, mul_one]
        exact hb n (Nat.lt_succ_self n)
    have hres := hx _ _ hlo hhi
    rwa [xor_split] at hres

/-- Helper: the conjugacy intertwines the two LFSR updates on all 17-bit
states.  By linearity of all three maps it suffices to check the 17 basis
states, each a concrete computation. -/
theorem phi_commutes (v : ℕ) (hv : v < 2 ^ 17) :
    phiMap (fibonacciStepX v) = galoisStep (phiMap v) := by
  refine xor_span (fun w => phiMap (fibonacciStepX w) = galoisStep (phiMap w))
    ?_ ?_ 17 ?_ v hv
  · decide
  · intro a b ha hb
    rw [fibonacciStepX_linear, phiMap_linear, ha, hb, phiMap_linear, galoisStep_linear]
  · intro j hj
    interval_cases j <;> decide

/-- Helper: the Fibonacci state sequence stays 17-bit. -/
theorem fibonacciSeq_lt (n : ℕ) : fibonacciSeq n < 2 ^ 17 := by
  induction n with
  | zero => norm_num [fibonacciSeq]
  | succ n ih =>
    show fibonacciStep (fibonacciSeq n) < 2 ^ 17
    unfold fibonacciStep
    apply Nat.or_lt_two_pow
    · rw [Nat.shiftRight_eq_div_pow]
      have := Nat.div_le_self (fibonacciSeq n) (2 ^ 1)
      omega
    · have h1 : (fibonacciSeq n ^^^ fibonacciSeq n >>> 3) &&& 1 ≤ 1 := Nat.and_le_right
      rw [Nat.shiftLeft_eq]
      calc ((fibonacciSeq n ^^^ fibonacciSeq n >>> 3) &&& 1) * 2 ^ 16 ≤ 1 * 2 ^ 16 :=
        Nat.mul_le_mul_right _ h1
        _ < 2 ^ 17 := by norm_num

/-- Helper: the Galois state sequence from seed `0x4001` is the conjugated
Fibonacci state sequence from seed 1. -/
theorem galois_phi_fib (n : ℕ) : galoisSeq n = phiMap (fibonacciSeq n) := by
  induction n with
  | zero => decide
  | succ n ih =>
    show galoisStep (galoisSeq n) = phiMap (fibonacciSeq (n + 1))
    rw [ih, ← phi_commutes _ (fibonacciSeq_lt n), ← fibonacciStep_eq_xor _ (fibonacciSeq_lt n)]
    rfl

/-- C5: for every tick count `n`, the 1-bit output of the implementation's
Galois-form 17-bit LFSR (update `value = (value >> 1) XOR (lsb ? 0x12000 :
0)`) started from seed `0x4001` equals, sample for sample, the output of
the Fibonacci-form LFSR with the same taps started from seed 1. -/
theorem c5_lfsr_output_equivalence (n : ℕ) :
    galoisSeq n &&& 1 = fibonacciSeq n &&& 1 := by
  rw [galois_phi_fib, phiMap_bit0]



/-- The per-channel reachability invariant: tone period in `[1, 4095]`,
oscillator position at most 4094 (so the `u16` increment cannot wrap),
1-bit oscillator value, 4-bit amplitude. -/
def Channel.Inv (c : Channel) : Prop :=
  1 ≤ c.period ∧ c.period ≤ 4095 ∧ c.position ≤ 4094 ∧ c.value ≤ 1 ∧ c.amplitude ≤ 15

/-- The noise generator reachability invariant: period in `[1, 31]`,
counter at most 61, 17-bit LFSR state. -/
def NoiseGenerator.Inv (g : NoiseGenerator) : Prop :=
  1 ≤ g.period ∧ g.period ≤ 31 ∧ g.counter ≤ 61 ∧ g.value < 2 ^ 17

/-- The envelope generator reachability invariant: period in `[1, 65535]`,
position at most 65534, 4-bit shape, 1-bit segment, 5-bit value. -/
def EnvelopeGenerator.Inv (e : EnvelopeGenerator) : Prop :=
  1 ≤ e.period ∧ e.period ≤ 65535 ∧ e.position ≤ 65534 ∧ e.shape ≤ 15 ∧
    e.segment ≤ 1 ∧ e.value ≤ 31

/-- The chip-wide reachability invariant (everything except the fractional
accumulator, which additionally needs a nonnegative step). -/
def PSG.Inv0 (p : PSG) : Prop :=
  p.channelA.Inv ∧ p.channelB.Inv ∧ p.channelC.Inv ∧
    p.noise_generator.Inv ∧ p.envelope_generator.Inv ∧
    p.decimator_index ≤ 22 ∧ p.dc_filter.index ≤ 1023

/-- The accumulator invariant: `0 ≤ x < 1`, carried together with the step
bounds that sustain it. -/
def PSG.InvX (p : PSG) : Prop :=
  0 ≤ p.x ∧ p.x < 1 ∧ 0 ≤ p.step ∧ p.step < 1

/-- Helper: xor with 1 keeps a 1-bit value 1-bit. -/
theorem xor_one_le_one (v : ℕ) (h : v ≤ 1) : v ^^^ 1 ≤ 1 := by
  rcases (by omega : v = 0 ∨ v = 1) with h' | h' <;> subst h' <;> decide

/-- Helper: the oscillator tick preserves the channel invariant. -/
theorem channel_render_inv (c : Channel) (h : c.Inv) : c.render.1.Inv := by
  obtain ⟨h1, h2, h3, h4, h5⟩ := h
  unfold Channel.render
  simp only []
  split
  · exact ⟨h1, h2, Nat.zero_le _, xor_one_le_one _ h4, h5⟩
  · rename_i hcond
    simp only [Nat.not_le] at hcond
    exact ⟨h1, h2, show (c.position + 1) % 65536 ≤ 4094 by omega, h4, h5⟩

/-- Helper: the Galois LFSR update keeps the state 17-bit. -/
theorem galoisStep_lt (v : ℕ) (h : v < 2 ^ 17) : galoisStep v < 2 ^ 17 := by
  unfold galoisStep
  apply Nat.xor_lt_two_pow
  · rw [Nat.shiftRight_eq_div_pow]
    have := Nat.div_le_self v (2 ^ 1)
    omega
  · split <;> norm_num

/-- Helper: the noise tick preserves the noise generator invariant. -/
theorem noise_gen_render_inv (g : NoiseGenerator) (h : g.Inv) :
    g.render.1.Inv := by
  obtain ⟨h1, h2, h3, h4⟩ := h
  unfold NoiseGenerator.render
  simp only []
  split
  · exact ⟨h1, h2, Nat.zero_le _, galoisStep_lt _ h4⟩
  · rename_i hcond
    simp only [Nat.not_le] at hcond
    exact ⟨h1, h2, show (g.counter + 1) % 256 ≤ 61 by omega, h4⟩

/-- Helper: the envelope tick preserves the envelope generator invariant. -/
theorem env_gen_render_inv (e : EnvelopeGenerator) (h : e.Inv) :
    e.render.1.Inv := by
  obtain ⟨h1, h2, h3, h4, h5, h6⟩ := h
  unfold EnvelopeGenerator.render
  simp only []
  split
  · split
    · split
      · exact ⟨h1, h2, Nat.zero_le _, h4, xor_one_le_one _ h5, reset_segment_value_le _⟩
      · exact ⟨h1, h2, Nat.zero_le _, h4, h5, show e.value - 1 ≤ 31 by omega⟩
    · split
      · exact ⟨h1, h2, Nat.zero_le _, h4, xor_one_le_one _ h5, reset_segment_value_le _⟩
      · rename_i hval
        simp only [Nat.not_le] at hval
        exact ⟨h1, h2, Nat.zero_le _, h4, h5, show e.value + 1 ≤ 31 by omega⟩
    · exact ⟨h1, h2, Nat.zero_le _, h4, h5, h6⟩
  · rename_i hcond
    simp only [Nat.not_le] at hcond
    exact ⟨h1, h2, show (e.position + 1) % 65536 ≤ 65534 by omega, h4, h5, h6⟩


/-- Helper: 12-bit or of masked parts stays below 4096. -/
theorem or_masked_lt_4096 (a b : ℕ) (ha : a < 4096) (hb : b < 4096) : a ||| b < 4096 := by
  have h4096 : (4096 : ℕ) = 2 ^ 12 := by norm_num
  rw [h4096] at ha hb ⊢
  exact Nat.or_lt_two_pow ha hb

/-- Helper: 16-bit or of masked parts stays below 65536. -/
theorem or_masked_lt_65536 (a b : ℕ) (ha : a < 65536) (hb : b < 65536) : a ||| b < 65536 := by
  have h65536 : (65536 : ℕ) = 2 ^ 16 := by norm_num
  rw [h65536] at ha hb ⊢
  exact Nat.or_lt_two_pow ha hb

/-- Helper: every channel setter preserves the channel invariant. -/
theorem channel_set_period_inv (c : Channel) (h : c.Inv) (v : ℕ) :
    (c.set_period v).Inv := by
  obtain ⟨h1, h2, h3, h4, h5⟩ := h
  have hm : (v % 65536) &&& 4095 ≤ 4095 := Nat.and_le_right
  exact ⟨le_max_right _ _, show max ((v % 65536) &&& 4095) 1 ≤ 4095 by omega, h3, h4, h5⟩

/-- Helper: the period-MSB write preserves the channel invariant. -/
theorem channel_set_period_msb_inv (c : Channel) (h : c.Inv) (v : ℕ) :
    (c.set_period_msb v).Inv := by
  obtain ⟨h1, h2, h3, h4, h5⟩ := h
  have ha : c.period &&& 255 ≤ 255 := Nat.and_le_right
  have hb : (v % 256) &&& 15 ≤ 15 := Nat.and_le_right
  have hsh : ((v % 256) &&& 15) <<< 8 ≤ 3840 := by
    rw [Nat.shiftLeft_eq]
    calc ((v % 256) &&& 15) * 2 ^ 8 ≤ 15 * 2 ^ 8 := Nat.mul_le_mul_right _ hb
      _ = 3840 := by norm_num
  have hor := or_masked_lt_4096 (c.period &&& 255) (((v % 256) &&& 15) <<< 8)
    (by omega) (by omega)
  exact ⟨le_max_right _ _,
    show max ((c.period &&& 255) ||| (((v % 256) &&& 15) <<< 8)) 1 ≤ 4095 by omega,
    h3, h4, h5⟩

/-- Helper: the period-LSB write preserves the channel invariant. -/
theorem channel_set_period_lsb_inv (c : Channel) (h : c.Inv) (v : ℕ) :
    (c.set_period_lsb v).Inv := by
  obtain ⟨h1, h2, h3, h4, h5⟩ := h
  have ha : c.period &&& 3840 ≤ 3840 := Nat.and_le_right
  have hb : v % 256 ≤ 255 := by omega
  have hor := or_masked_lt_4096 (c.period &&& 3840) (v % 256) (by omega) (by omega)
  exact ⟨le_max_right _ _,
    show max ((c.period &&& 3840) ||| (v % 256)) 1 ≤ 4095 by omega, h3, h4, h5⟩

/-- Helper: the amplitude write preserves the channel invariant. -/
theorem Channel.set_amplitude_inv (c : Channel) (h : c.Inv) (v : ℕ) :
    (c.set_amplitude v).Inv := by
  obtain ⟨h1, h2, h3, h4, h5⟩ := h
  exact ⟨h1, h2, h3, h4, Nat.and_le_right⟩

/-- Helper: the combined amplitude/envelope write preserves the channel
invariant. -/
theorem Channel.set_amp_env_inv (c : Channel) (h : c.Inv) (v : ℕ) :
    (c.set_amplitude_and_envelope_enabled v).Inv := by
  obtain ⟨h1, h2, h3, h4, h5⟩ := h
  exact ⟨h1, h2, h3, h4, Nat.and_le_right⟩

/-- Helper: the boolean-flag and panning setters preserve the channel
invariant. -/
theorem Channel.set_flags_inv (c : Channel) (h : c.Inv) :
    ∀ (d e : Bool) (b : ℚ), (c.set_tone_disabled d).Inv ∧ (c.set_noise_disabled d).Inv ∧
      (c.set_envelope_enabled e).Inv ∧ (c.set_panning b).Inv := by
  obtain ⟨h1, h2, h3, h4, h5⟩ := h
  exact fun d e b => ⟨⟨h1, h2, h3, h4, h5⟩, ⟨h1, h2, h3, h4, h5⟩,
    ⟨h1, h2, h3, h4, h5⟩, ⟨h1, h2, h3, h4, h5⟩⟩

/-- Helper: the noise period write preserves the noise invariant. -/
theorem noise_gen_set_period_inv (g : NoiseGenerator) (h : g.Inv) (v : ℕ) :
    (g.set_period v).Inv := by
  obtain ⟨h1, h2, h3, h4⟩ := h
  have hm : (v % 256) &&& 31 ≤ 31 := Nat.and_le_right
  exact ⟨le_max_right _ _, show max ((v % 256) &&& 31) 1 ≤ 31 by omega, h3, h4⟩

/-- Helper: the envelope period writes preserve the envelope invariant. -/
theorem env_gen_set_period_inv (e : EnvelopeGenerator) (h : e.Inv) (v : ℕ) :
    (e.set_period v).Inv := by
  obtain ⟨h1, h2, h3, h4, h5, h6⟩ := h
  exact ⟨le_max_right _ _, show max (v % 65536) 1 ≤ 65535 by omega, h3, h4, h5, h6⟩

/-- Helper: the envelope period-MSB write preserves the envelope
invariant. -/
theorem env_gen_set_period_msb_inv (e : EnvelopeGenerator) (h : e.Inv) (v : ℕ) :
    (e.set_period_msb v).Inv := by
  obtain ⟨h1, h2, h3, h4, h5, h6⟩ := h
  have ha : e.period &&& 255 ≤ 255 := Nat.and_le_right
  have hb : (v % 256) &&& 255 ≤ 255 := Nat.and_le_right
  have hsh : ((v % 256) &&& 255) <<< 8 ≤ 65280 := by
    rw [Nat.shiftLeft_eq]
    calc ((v % 256) &&& 255) * 2 ^ 8 ≤ 255 * 2 ^ 8 := Nat.mul_le_mul_right _ hb
      _ = 65280 := by norm_num
  have hor := or_masked_lt_65536 (e.period &&& 255) (((v % 256) &&& 255) <<< 8)
    (by omega) (by omega)
  exact ⟨le_max_right _ _,
    show max ((e.period &&& 255) ||| (((v % 256) &&& 255) <<< 8)) 1 ≤ 65535 by omega,
    h3, h4, h5, h6⟩

/-- Helper: the envelope period-LSB write preserves the envelope
invariant. -/
theorem env_gen_set_period_lsb_inv (e : EnvelopeGenerator) (h : e.Inv) (v : ℕ) :
    (e.set_period_lsb v).Inv := by
  obtain ⟨h1, h2, h3, h4, h5, h6⟩ := h
  have ha : e.period &&& 65280 ≤ 65280 := Nat.and_le_right
  have hor := or_masked_lt_65536 (e.period &&& 65280) (v % 256) (by omega) (by omega)
  exact ⟨le_max_right _ _,
    show max ((e.period &&& 65280) ||| (v % 256)) 1 ≤ 65535 by omega, h3, h4, h5, h6⟩

/-- Helper: the shape write preserves the envelope invariant. -/
theorem EnvelopeGenerator.set_shape_inv (e : EnvelopeGenerator) (h : e.Inv) (v : ℕ) :
    (e.set_shape v).Inv := by
  obtain ⟨h1, h2, h3, h4, h5, h6⟩ := h
  refine ⟨h1, h2, Nat.zero_le _, Nat.and_le_right, Nat.zero_le _, reset_segment_value_le _⟩


/-- Helper: the boolean-flag setters change no invariant field. -/
theorem Channel.set_tone_disabled_inv (c : Channel) (h : c.Inv) (d : Bool) :
    (c.set_tone_disabled d).Inv := h

/-- Helper: the noise-flag setter changes no invariant field. -/
theorem Channel.set_noise_disabled_inv (c : Channel) (h : c.Inv) (d : Bool) :
    (c.set_noise_disabled d).Inv := h

/-- Helper: the envelope-flag setter changes no invariant field. -/
theorem Channel.set_envelope_enabled_inv (c : Channel) (h : c.Inv) (e : Bool) :
    (c.set_envelope_enabled e).Inv := h

/-- Helper: the panning setter changes no invariant field. -/
theorem Channel.set_panning_inv (c : Channel) (h : c.Inv) (b : ℚ) :
    (c.set_panning b).Inv := h

/-- Helper: mutating one channel with an invariant-preserving function
preserves the chip invariant. -/
theorem updateChannel_inv0 (p : PSG) (i : Fin 3) (f : Channel → Channel)
    (h : p.Inv0) (hf : ∀ c, c.Inv → (f c).Inv) : (p.updateChannel i f).Inv0 := by
  obtain ⟨hA, hB, hC, hN, hE, hD, hF⟩ := h
  fin_cases i
  · exact ⟨hf _ hA, hB, hC, hN, hE, hD, hF⟩
  · exact ⟨hA, hf _ hB, hC, hN, hE, hD, hF⟩
  · exact ⟨hA, hB, hf _ hC, hN, hE, hD, hF⟩

/-- Helper: the mixer-register write preserves the chip invariant. -/
theorem set_mixer_inv0 (p : PSG) (m : ℕ) (h : p.Inv0) : (p.set_mixer m).Inv0 := by
  unfold PSG.set_mixer
  simp only []
  refine updateChannel_inv0 _ _ _ ?_ (fun c hc => Channel.set_noise_disabled_inv c hc _)
  refine updateChannel_inv0 _ _ _ ?_ (fun c hc => Channel.set_noise_disabled_inv c hc _)
  refine updateChannel_inv0 _ _ _ ?_ (fun c hc => Channel.set_noise_disabled_inv c hc _)
  refine updateChannel_inv0 _ _ _ ?_ (fun c hc => Channel.set_tone_disabled_inv c hc _)
  refine updateChannel_inv0 _ _ _ ?_ (fun c hc => Channel.set_tone_disabled_inv c hc _)
  exact updateChannel_inv0 _ _ _ h (fun c hc => Channel.set_tone_disabled_inv c hc _)

/-- Helper: one chip tick preserves the chip invariant. -/
theorem renderTick_inv0 (p : PSG) (h : p.Inv0) : p.renderTick.1.Inv0 := by
  obtain ⟨hA, hB, hC, hN, hE, hD, hF⟩ := h
  unfold PSG.renderTick
  simp only []
  exact ⟨channel_render_inv _ hA, channel_render_inv _ hB, channel_render_inv _ hC,
    noise_gen_render_inv _ hN, env_gen_render_inv _ hE, hD, hF⟩

/-- Helper: one oversampling iteration preserves the chip invariant. -/
theorem renderStep_inv0 (start offset : ℕ) (p : PSG) (h : p.Inv0) :
    (PSG.renderStep start offset p).Inv0 := by
  unfold PSG.renderStep
  simp only []
  split
  · obtain ⟨hA, hB, hC, hN, hE, hD, hF⟩ := renderTick_inv0 _ h
    exact ⟨hA, hB, hC, hN, hE, hD, hF⟩
  · exact h

/-- Helper: the oversampling loop preserves the chip invariant. -/
theorem renderLoop_inv0 (start : ℕ) (l : List ℕ) (p : PSG) (h : p.Inv0) :
    (PSG.renderLoop start p l).Inv0 := by
  induction l generalizing p with
  | nil => exact h
  | cons o rest ih => exact ih _ (renderStep_inv0 _ _ _ h)

/-- Helper: one output frame preserves the chip invariant. -/
theorem render_inv0 (p : PSG) (h : p.Inv0) : p.render.1.Inv0 := by
  obtain ⟨hA, hB, hC, hN, hE, hD, hF⟩ := h
  unfold PSG.render
  simp only []
  have hmod : FIR_SIZE / DECIMATE_FACTOR - 1 = 23 := by norm_num [FIR_SIZE, DECIMATE_FACTOR]
  have hp1 : PSG.Inv0
      { p with decimator_index := (p.decimator_index + 1) % (FIR_SIZE / DECIMATE_FACTOR - 1) } := by
    refine ⟨hA, hB, hC, hN, hE, ?_, hF⟩
    show (p.decimator_index + 1) % (FIR_SIZE / DECIMATE_FACTOR - 1) ≤ 22
    rw [hmod]
    omega
  obtain ⟨gA, gB, gC, gN, gE, gD, gF⟩ := renderLoop_inv0 _ _ _ hp1
  exact ⟨gA, gB, gC, gN, gE, gD, Nat.and_le_right⟩

/-- Helper: every public operation preserves the chip invariant. -/
theorem applyOp_inv0 (p : PSG) (op : Op) (h : p.Inv0) : (applyOp p op).Inv0 := by
  cases op with
  | render => exact render_inv0 _ h
  | setRegister r v =>
    show (p.set_register r v).Inv0
    unfold PSG.set_register
    split
    · exact updateChannel_inv0 _ _ _ h (fun c hc => channel_set_period_lsb_inv c hc _)
    · exact updateChannel_inv0 _ _ _ h (fun c hc => channel_set_period_msb_inv c hc _)
    · exact updateChannel_inv0 _ _ _ h (fun c hc => channel_set_period_lsb_inv c hc _)
    · exact updateChannel_inv0 _ _ _ h (fun c hc => channel_set_period_msb_inv c hc _)
    · exact updateChannel_inv0 _ _ _ h (fun c hc => channel_set_period_lsb_inv c hc _)
    · exact updateChannel_inv0 _ _ _ h (fun c hc => channel_set_period_msb_inv c hc _)
    · obtain ⟨hA, hB, hC, hN, hE, hD, hF⟩ := h
      exact ⟨hA, hB, hC, noise_gen_set_period_inv _ hN _, hE, hD, hF⟩
    · exact set_mixer_inv0 _ _ h
    · exact updateChannel_inv0 _ _ _ h (fun c hc => Channel.set_amp_env_inv c hc _)
    · exact updateChannel_inv0 _ _ _ h (fun c hc => Channel.set_amp_env_inv c hc _)
    · exact updateChannel_inv0 _ _ _ h (fun c hc => Channel.set_amp_env_inv c hc _)
    · obtain ⟨hA, hB, hC, hN, hE, hD, hF⟩ := h
      exact ⟨hA, hB, hC, hN, env_gen_set_period_lsb_inv _ hE _, hD, hF⟩
    · obtain ⟨hA, hB, hC, hN, hE, hD, hF⟩ := h
      exact ⟨hA, hB, hC, hN, env_gen_set_period_msb_inv _ hE _, hD, hF⟩
    · obtain ⟨hA, hB, hC, hN, hE, hD, hF⟩ := h
      exact ⟨hA, hB, hC, hN, EnvelopeGenerator.set_shape_inv _ hE _, hD, hF⟩
    · exact h
  | setTonePeriod ch period =>
    exact updateChannel_inv0 _ _ _ h (fun c hc => channel_set_period_inv c hc _)
  | setAmplitude ch amplitude =>
    exact updateChannel_inv0 _ _ _ h (fun c hc => Channel.set_amplitude_inv c hc _)
  | setToneDisabled ch d =>
    exact updateChannel_inv0 _ _ _ h (fun c hc => Channel.set_tone_disabled_inv c hc _)
  | setNoiseDisabled ch d =>
    exact updateChannel_inv0 _ _ _ h (fun c hc => Channel.set_noise_disabled_inv c hc _)
  | setEnvelopeEnabled ch e =>
    exact updateChannel_inv0 _ _ _ h (fun c hc => Channel.set_envelope_enabled_inv c hc _)
  | setNoisePeriod period =>
    obtain ⟨hA, hB, hC, hN, hE, hD, hF⟩ := h
    exact ⟨hA, hB, hC, noise_gen_set_period_inv _ hN _, hE, hD, hF⟩
  | setMixer m => exact set_mixer_inv0 _ _ h
  | setEnvelopePeriod period =>
    obtain ⟨hA, hB, hC, hN, hE, hD, hF⟩ := h
    exact ⟨hA, hB, hC, hN, env_gen_set_period_inv _ hE _, hD, hF⟩
  | setEnvelopeShape shape =>
    obtain ⟨hA, hB, hC, hN, hE, hD, hF⟩ := h
    exact ⟨hA, hB, hC, hN, EnvelopeGenerator.set_shape_inv _ hE _, hD, hF⟩
  | setChipType t =>
    obtain ⟨hA, hB, hC, hN, hE, hD, hF⟩ := h
    exact ⟨hA, hB, hC, hN, hE, hD, hF⟩
  | chanSetPeriod ch period =>
    exact updateChannel_inv0 _ _ _ h (fun c hc => channel_set_period_inv c hc _)
  | chanSetPeriodMsb ch v =>
    exact updateChannel_inv0 _ _ _ h (fun c hc => channel_set_period_msb_inv c hc _)
  | chanSetPeriodLsb ch v =>
    exact updateChannel_inv0 _ _ _ h (fun c hc => channel_set_period_lsb_inv c hc _)
  | chanSetAmplitudeAndEnvelopeEnabled ch v =>
    exact updateChannel_inv0 _ _ _ h (fun c hc => Channel.set_amp_env_inv c hc _)
  | chanSetPanning ch balance =>
    exact updateChannel_inv0 _ _ _ h (fun c hc => Channel.set_panning_inv c hc _)
  | envSetPeriodMsb v =>
    obtain ⟨hA, hB, hC, hN, hE, hD, hF⟩ := h
    exact ⟨hA, hB, hC, hN, env_gen_set_period_msb_inv _ hE _, hD, hF⟩
  | envSetPeriodLsb v =>
    obtain ⟨hA, hB, hC, hN, hE, hD, hF⟩ := h
    exact ⟨hA, hB, hC, hN, env_gen_set_period_lsb_inv _ hE _, hD, hF⟩

/-- Helper: every operation sequence preserves the chip invariant. -/
theorem psgRun_inv0 (p : PSG) (ops : List Op) (h : p.Inv0) : (psgRun p ops).Inv0 := by
  induction ops generalizing p with
  | nil => exact h
  | cons op rest ih => exact ih _ (applyOp_inv0 _ _ h)


/-- Helper: a chip tick changes neither `x` nor `step`. -/
theorem renderTick_x_step (p : PSG) :
    p.renderTick.1.x = p.x ∧ p.renderTick.1.step = p.step := ⟨rfl, rfl⟩

/-- Helper: one oversampling iteration preserves the accumulator
invariant. -/
theorem renderStep_invX (start offset : ℕ) (p : PSG) (h : p.InvX) :
    (PSG.renderStep start offset p).InvX := by
  obtain ⟨h0, h1, h2, h3⟩ := h
  unfold PSG.renderStep
  simp only []
  split
  · rename_i hx
    refine ⟨?_, ?_, h2, h3⟩
    · show (0 : ℚ) ≤ p.x + p.step - 1
      linarith
    · show p.x + p.step - 1 < 1
      linarith
  · rename_i hx
    rw [not_le] at hx
    refine ⟨?_, ?_, h2, h3⟩
    · show (0 : ℚ) ≤ p.x + p.step
      linarith
    · show p.x + p.step < 1
      linarith

/-- Helper: the oversampling loop preserves the accumulator invariant. -/
theorem renderLoop_invX (start : ℕ) (l : List ℕ) (p : PSG) (h : p.InvX) :
    (PSG.renderLoop start p l).InvX := by
  induction l generalizing p with
  | nil => exact h
  | cons o rest ih => exact ih _ (renderStep_invX _ _ _ h)

/-- Helper: one output frame preserves the accumulator invariant. -/
theorem render_invX (p : PSG) (h : p.InvX) : p.render.1.InvX := by
  unfold PSG.render
  simp only []
  exact renderLoop_invX _ _ _ h

/-- Helper: every public operation preserves the accumulator invariant. -/
theorem applyOp_invX (p : PSG) (op : Op) (h : p.InvX) : (applyOp p op).InvX := by
  cases op with
  | render => exact render_invX _ h
  | setRegister r v =>
    show (p.set_register r v).InvX
    unfold PSG.set_register
    split <;> exact h
  | setTonePeriod ch period => fin_cases ch <;> exact h
  | setAmplitude ch amplitude => fin_cases ch <;> exact h
  | setToneDisabled ch d => fin_cases ch <;> exact h
  | setNoiseDisabled ch d => fin_cases ch <;> exact h
  | setEnvelopeEnabled ch e => fin_cases ch <;> exact h
  | setNoisePeriod period => exact h
  | setMixer m => exact h
  | setEnvelopePeriod period => exact h
  | setEnvelopeShape shape => exact h
  | setChipType t => exact h
  | chanSetPeriod ch period => fin_cases ch <;> exact h
  | chanSetPeriodMsb ch v => fin_cases ch <;> exact h
  | chanSetPeriodLsb ch v => fin_cases ch <;> exact h
  | chanSetAmplitudeAndEnvelopeEnabled ch v => fin_cases ch <;> exact h
  | chanSetPanning ch balance => fin_cases ch <;> exact h
  | envSetPeriodMsb v => exact h
  | envSetPeriodLsb v => exact h

/-- Helper: every operation sequence preserves the accumulator invariant. -/
theorem psgRun_invX (p : PSG) (ops : List Op) (h : p.InvX) : (psgRun p ops).InvX := by
  induction ops generalizing p with
  | nil => exact h
  | cons op rest ih => exact ih _ (applyOp_invX _ _ h)

/-- Helper: the freshly constructed chip satisfies the chip invariant. -/
theorem psgInit_inv0 (step : ℚ) : (psgInit step).Inv0 := by
  refine ⟨⟨?_, ?_, ?_, ?_, ?_⟩, ⟨?_, ?_, ?_, ?_, ?_⟩, ⟨?_, ?_, ?_, ?_, ?_⟩,
    ⟨?_, ?_, ?_, ?_⟩, ⟨?_, ?_, ?_, ?_, ?_, ?_⟩, ?_, ?_⟩ <;> norm_num [psgInit,
      Channel.new, NoiseGenerator.new, EnvelopeGenerator.new, DCFilter.new]


/-- The bounds asserted by the spec's invariant list (section 8) for a
reachable chip state: tone periods in `[1, 4095]`, noise period in
`[1, 31]`, envelope period in `[1, 65535]`, amplitudes in `[0, 15]`,
envelope value in `[0, 31]`, envelope shape in `[0, 15]`, fractional
accumulator in `[0, 1)`, and decimator index in `{0, ..., 22}`. -/
def ClaimedBounds (q : PSG) : Prop :=
  (1 ≤ q.channelA.period ∧ q.channelA.period ≤ 4095) ∧
  (1 ≤ q.channelB.period ∧ q.channelB.period ≤ 4095) ∧
  (1 ≤ q.channelC.period ∧ q.channelC.period ≤ 4095) ∧
  (1 ≤ q.noise_generator.period ∧ q.noise_generator.period ≤ 31) ∧
  (1 ≤ q.envelope_generator.period ∧ q.envelope_generator.period ≤ 65535) ∧
  (q.channelA.amplitude ≤ 15 ∧ q.channelB.amplitude ≤ 15 ∧ q.channelC.amplitude ≤ 15) ∧
  q.envelope_generator.value ≤ 31 ∧
  q.envelope_generator.shape ≤ 15 ∧
  (0 ≤ q.x ∧ q.x < 1) ∧
  q.decimator_index ≤ 22

/-- Helper: inverting a successful construction. -/
theorem psgNew_ok_elim (clock_rate : ℚ) (sample_rate : ℕ) (p0 : PSG)
    (hok : psgNew clock_rate sample_rate = Except.ok p0) :
    p0 = psgInit (clock_rate / ((sample_rate : ℚ) * 8 * (DECIMATE_FACTOR : ℚ))) ∧
      clock_rate / ((sample_rate : ℚ) * 8 * (DECIMATE_FACTOR : ℚ)) < 1 := by
  unfold psgNew at hok
  simp only [] at hok
  by_cases hstep : (1 : ℚ) ≤ clock_rate / ((sample_rate : ℚ) * 8 * (DECIMATE_FACTOR : ℚ))
  · rw [if_pos hstep] at hok
    cases hok
  · rw [if_neg hstep] at hok
    cases hok
    exact ⟨rfl, lt_of_not_le hstep⟩

/-- C3 (amended): in every state reachable from a successful construction
with a nonnegative clock rate by any sequence of register writes, accessor
setters and `render()` calls, all the bounds of `ClaimedBounds` hold.  The
nonnegativity hypothesis is forced by the counterexample below: a negative
clock rate also constructs successfully and drives `x` negative. -/
theorem c3_reachable_invariants (clock_rate : ℚ) (sample_rate : ℕ) (p0 : PSG)
    (hok : psgNew clock_rate sample_rate = Except.ok p0)
    (hclock : 0 ≤ clock_rate) (hsr : 0 < sample_rate) (ops : List Op) :
    ClaimedBounds (psgRun p0 ops) := by
  obtain ⟨hp0, hstep1⟩ := psgNew_ok_elim _ _ _ hok
  subst hp0
  have hstep0 : 0 ≤ clock_rate / ((sample_rate : ℚ) * 8 * (DECIMATE_FACTOR : ℚ)) := by
    apply div_nonneg hclock
    have hpos : (0 : ℚ) ≤ sample_rate := by positivity
    positivity
  have hinv0 := psgRun_inv0
    (psgInit (clock_rate / ((sample_rate : ℚ) * 8 * (DECIMATE_FACTOR : ℚ)))) ops
    (psgInit_inv0 _)
  have hinvX := psgRun_invX
    (psgInit (clock_rate / ((sample_rate : ℚ) * 8 * (DECIMATE_FACTOR : ℚ)))) ops
    ⟨le_refl 0, show (0 : ℚ) < 1 by norm_num, hstep0, hstep1⟩
  obtain ⟨⟨a1, a2, a3, a4, a5⟩, ⟨b1, b2, b3, b4, b5⟩, ⟨c1, c2, c3, c4, c5⟩,
    ⟨n1, n2, n3, n4⟩, ⟨e1, e2, e3, e4, e5, e6⟩, hD, hF⟩ := hinv0
  obtain ⟨x1, x2, x3, x4⟩ := hinvX
  exact ⟨⟨a1, a2⟩, ⟨b1, b2⟩, ⟨c1, c2⟩, ⟨n1, n2⟩, ⟨e1, e2⟩, ⟨a5, b5, c5⟩, e6, e4,
    ⟨x1, x2⟩, hD⟩

/-- Witness for C3 at clock rate 1, sample rate 1, after one `render`. -/
theorem c3_reachable_invariants_witness :
    ClaimedBounds (psgRun
      (psgInit ((1 : ℚ) / (((1 : ℕ) : ℚ) * 8 * (DECIMATE_FACTOR : ℚ)))) [Op.render]) :=
  c3_reachable_invariants 1 1 _
    (by unfold psgNew; rw [if_neg (by norm_num [DECIMATE_FACTOR])])
    (by norm_num) (by norm_num) [Op.render]

/-- Helper: the accumulator after one oversampling iteration. -/
theorem renderStep_x (start offset : ℕ) (p : PSG) :
    (PSG.renderStep start offset p).x =
      if 1 ≤ p.x + p.step then p.x + p.step - 1 else p.x + p.step := by
  unfold PSG.renderStep
  simp only []
  split <;> rfl

/-- Helper: an oversampling iteration never changes the step. -/
theorem renderStep_step (start offset : ℕ) (p : PSG) :
    (PSG.renderStep start offset p).step = p.step := by
  unfold PSG.renderStep
  simp only []
  split <;> rfl

/-- Helper: the accumulator of a frame is the accumulator of its
oversampling loop. -/
theorem render_x (p : PSG) :
    p.render.1.x =
      (PSG.renderLoop (FIR_SIZE - p.decimator_index * DECIMATE_FACTOR)
        { p with decimator_index :=
            (p.decimator_index + 1) % (FIR_SIZE / DECIMATE_FACTOR - 1) }
        [7, 6, 5, 4, 3, 2, 1, 0]).x := rfl

/-- Helper: the fresh accumulator is zero. -/
theorem psgInit_x (st : ℚ) : (psgInit st).x = 0 := rfl

/-- Helper: the fresh step is the given one. -/
theorem psgInit_step (st : ℚ) : (psgInit st).step = st := rfl

/-- C3 counterexample: the claim as stated fails for negative clock rates:
`PSG::new(-2_822_400.0, 44100)` succeeds (its step `-1` is below 1), and a
single `render()` drives the fractional accumulator `x` to `-8 < 0`,
violating `0 ≤ x`. -/
theorem c3_counterexample :
    psgNew (-2822400) 44100 = Except.ok (psgInit (-1)) ∧
    (psgRun (psgInit (-1)) [Op.render]).x < 0 := by
  constructor
  · unfold psgNew
    have harg : (-2822400 : ℚ) / (((44100 : ℕ) : ℚ) * 8 * (DECIMATE_FACTOR : ℚ)) = -1 := by
      norm_num [DECIMATE_FACTOR]
    rw [if_neg (by rw [harg]; norm_num), harg]
  · show (PSG.render (psgInit (-1))).1.x < 0
    rw [render_x]
    simp only [PSG.renderLoop, renderStep_x, renderStep_step, psgInit_x, psgInit_step]
    norm_num

/-- Helper: the gated 5-bit mixer level is at most 31 whenever the shared
noise bit is 1-bit, the amplitude 4-bit and the envelope level 5-bit. -/
theorem gatedLevel_le (c : Channel) (t n e : ℕ) (hn : n ≤ 1)
    (ha : c.amplitude ≤ 15) (he : e ≤ 31) : gatedLevel c t n e ≤ 31 := by
  unfold gatedLevel
  have h1 := gate_le_one t n c.tone_off.toNat c.noise_off.toNat hn (Bool.toNat_le _)
  have h2 : (if c.envelope_on then e else c.amplitude * 2 + 1) ≤ 31 := by
    split <;> omega
  calc ((t ||| c.tone_off.toNat) &&& (n ||| c.noise_off.toNat)) *
        (if c.envelope_on then e else c.amplitude * 2 + 1) ≤ 1 * 31 :=
      Nat.mul_le_mul h1 h2
    _ = 31 := by norm_num

/-- C8: `render()` is total on every reachable state (it is embedded as a
total function, so it always returns a stereo pair) and none of its
partial operations can fail there: the mixed 5-bit level is at most 31
(in range for the 32-entry DAC table), the tone/envelope position counters
and the noise counter cannot overflow their `u16`/`u8` types, the `u32`
LFSR state is 17-bit, the assertion `start <= FIR_SIZE` of
`Decimator::render` holds (and the `usize` subtraction `192 - 8 *
decimator_index` cannot underflow), every decimator buffer index touched
by the resampler fill loop, the FIR evaluation and the trailing copy lies
below `2 * FIR_SIZE`, and the DC filter index stays in range. -/
theorem c8_render_safety (clock_rate : ℚ) (sample_rate : ℕ) (p0 : PSG)
    (hok : psgNew clock_rate sample_rate = Except.ok p0) (ops : List Op) :
    DECIMATE_FACTOR * (psgRun p0 ops).decimator_index ≤ 176 ∧
    FIR_SIZE - (psgRun p0 ops).decimator_index * DECIMATE_FACTOR ≤ FIR_SIZE ∧
    16 ≤ FIR_SIZE - (psgRun p0 ops).decimator_index * DECIMATE_FACTOR ∧
    (FIR_SIZE - (psgRun p0 ops).decimator_index * DECIMATE_FACTOR) + 191 < 2 * FIR_SIZE ∧
    (psgRun p0 ops).dc_filter.index < DC_SIZE ∧
    (psgRun p0 ops).channelA.position + 1 < 65536 ∧
    (psgRun p0 ops).channelB.position + 1 < 65536 ∧
    (psgRun p0 ops).channelC.position + 1 < 65536 ∧
    (psgRun p0 ops).noise_generator.counter + 1 < 256 ∧
    (psgRun p0 ops).envelope_generator.position + 1 < 65536 ∧
    (psgRun p0 ops).noise_generator.value < 2 ^ 32 ∧
    (∀ t, gatedLevel (psgRun p0 ops).channelA t (psgRun p0 ops).noise_generator.render.2
      (psgRun p0 ops).envelope_generator.render.2 ≤ 31) ∧
    (∀ t, gatedLevel (psgRun p0 ops).channelB t (psgRun p0 ops).noise_generator.render.2
      (psgRun p0 ops).envelope_generator.render.2 ≤ 31) ∧
    (∀ t, gatedLevel (psgRun p0 ops).channelC t (psgRun p0 ops).noise_generator.render.2
      (psgRun p0 ops).envelope_generator.render.2 ≤ 31) := by
  obtain ⟨hp0, hstep1⟩ := psgNew_ok_elim _ _ _ hok
  subst hp0
  set q := psgRun
    (psgInit (clock_rate / ((sample_rate : ℚ) * 8 * (DECIMATE_FACTOR : ℚ)))) ops with hq
  have hinv0 := psgRun_inv0
    (psgInit (clock_rate / ((sample_rate : ℚ) * 8 * (DECIMATE_FACTOR : ℚ)))) ops
    (psgInit_inv0 _)
  rw [← hq] at hinv0
  obtain ⟨⟨a1, a2, a3, a4, a5⟩, ⟨b1, b2, b3, b4, b5⟩, ⟨c1, c2, c3, c4, c5⟩,
    ⟨n1, n2, n3, n4⟩, ⟨e1, e2, e3, e4, e5, e6⟩, hD, hF⟩ := hinv0
  have hn := noise_render_le_one q.noise_generator
  have he := envelope_render_le q.envelope_generator e6
  refine ⟨?_, ?_, ?_, ?_, ?_, ?_, ?_, ?_, ?_, ?_, ?_, ?_, ?_, ?_⟩
  · simp only [DECIMATE_FACTOR]
    omega
  · exact Nat.sub_le _ _
  · simp only [FIR_SIZE, DECIMATE_FACTOR]
    omega
  · simp only [FIR_SIZE, DECIMATE_FACTOR]
    omega
  · simp only [DC_SIZE]
    omega
  · omega
  · omega
  · omega
  · omega
  · omega
  · have h17 : (2 : ℕ) ^ 17 ≤ 2 ^ 32 := Nat.pow_le_pow_right (by norm_num) (by norm_num)
    omega
  · exact fun t => gatedLevel_le _ _ _ _ hn a5 he
  · exact fun t => gatedLevel_le _ _ _ _ hn b5 he
  · exact fun t => gatedLevel_le _ _ _ _ hn c5 he

/-- Witness for C8 at clock rate 1, sample rate 1, with no operations. -/
theorem c8_render_safety_witness :
    DECIMATE_FACTOR *
        (psgRun (psgInit ((1 : ℚ) / (((1 : ℕ) : ℚ) * 8 * (DECIMATE_FACTOR : ℚ)))) []).decimator_index ≤
      176 :=
  (c8_render_safety 1 1 _
    (by unfold psgNew; rw [if_neg (by norm_num [DECIMATE_FACTOR])]) []).1


/-- A channel in its untouched construction configuration: both gates
disabled, fixed amplitude 0, envelope off. -/
def Channel.Silent (c : Channel) : Prop :=
  c.tone_off = true ∧ c.noise_off = true ∧ c.envelope_on = false ∧ c.amplitude = 0

/-- An interpolator with all-zero history and coefficients. -/
def Interpolator.Zero (ip : Interpolator) : Prop :=
  ip.y0 = 0 ∧ ip.y1 = 0 ∧ ip.y2 = 0 ∧ ip.y3 = 0 ∧ ip.c0 = 0 ∧ ip.c1 = 0 ∧ ip.c2 = 0

/-- The silent-chip invariant behind scenario S1: untouched channels, YM
table, zero interpolators, zero decimator buffers and a zero DC filter. -/
def PSG.Silent (p : PSG) : Prop :=
  p.channelA.Silent ∧ p.channelB.Silent ∧ p.channelC.Silent ∧
  p.chip = ChipType.YM ∧
  p.left_interpolator.Zero ∧ p.right_interpolator.Zero ∧
  (∀ i, p.left_decimator.buffer i = 0) ∧ (∀ i, p.right_decimator.buffer i = 0) ∧
  p.dc_filter.left_sum = 0 ∧ p.dc_filter.right_sum = 0 ∧
  (∀ i, p.dc_filter.left_delay i = 0) ∧ (∀ i, p.dc_filter.right_delay i = 0)

/-- Helper: with both gates disabled the mixed gate bit is constant 1. -/
theorem or_one_and_or_one (t n : ℕ) (hn : n ≤ 1) : (t ||| 1) &&& (n ||| 1) = 1 := by
  have hn' : n ||| 1 = 1 := by
    rcases (by omega : n = 0 ∨ n = 1) with h | h <;> subst h <;> decide
  rw [hn']
  apply Nat.eq_of_testBit_eq
  intro i
  cases i with
  | zero => simp [Nat.testBit_and, Nat.testBit_or]
  | succ j =>
    have h1 : (1 : ℕ).testBit (j + 1) = false := by
      apply Nat.testBit_lt_two_pow
      have h2 : (2 : ℕ) ^ 1 ≤ 2 ^ (j + 1) := Nat.pow_le_pow_right (by norm_num) (by omega)
      omega
    have hmod : (t ||| 1) % 2 < 2 ^ (j + 1) := by
      have h3 : (t ||| 1) % 2 < 2 := Nat.mod_lt _ (by norm_num)
      have h2 : (2 : ℕ) ≤ 2 ^ (j + 1) := by
        have h4 := Nat.pow_le_pow_right (show 1 ≤ 2 by norm_num) (show 1 ≤ j + 1 by omega)
        simpa using h4
      omega
    simp [Nat.testBit_and, h1, Nat.testBit_lt_two_pow hmod]

/-- Helper: index 1 of the YM DAC table is exactly 0. -/
theorem ym_log2lin_one : ChipType.YM.log2lin 1 = 0 := by
  norm_num [ChipType.log2lin, ChipType.log2lin_table, YM_DAC_TABLE]

/-- Helper: a silent channel contributes nothing to the mix and stays
silent. -/
theorem mixStep_silent (noise envelope : ℕ) (acc : ℚ × ℚ) (c : Channel)
    (hs : c.Silent) (hn : noise ≤ 1) :
    mixStep ChipType.YM.log2lin noise envelope acc c = (c.render.1, acc) ∧
      c.render.1.Silent := by
  obtain ⟨h1, h2, h3, h4⟩ := hs
  constructor
  · unfold mixStep
    simp only [h1, h2, h3, h4]
    rw [show (Bool.toNat true : ℕ) = 1 from rfl]
    rw [or_one_and_or_one _ _ hn]
    simp only [Bool.false_eq_true, if_false]
    norm_num [ym_log2lin_one]
  · unfold Channel.render
    simp only []
    split <;> exact ⟨h1, h2, h3, h4⟩

/-- Helper: a silent chip ticks to a silent chip and outputs exactly
`(0, 0)`. -/
theorem renderTick_silent (p : PSG) (h : p.Silent) :
    p.renderTick.2 = (0, 0) ∧ p.renderTick.1.Silent := by
  obtain ⟨hA, hB, hC, hchip, hLI, hRI, hLD, hRD, hs1, hs2, hd1, hd2⟩ := h
  have hn : p.noise_generator.render.2 ≤ 1 := noise_render_le_one _
  have mA := mixStep_silent p.noise_generator.render.2 p.envelope_generator.render.2
    (0, 0) p.channelA hA hn
  have mB := mixStep_silent p.noise_generator.render.2 p.envelope_generator.render.2
    (0, 0) p.channelB hB hn
  have mC := mixStep_silent p.noise_generator.render.2 p.envelope_generator.render.2
    (0, 0) p.channelC hC hn
  unfold PSG.renderTick
  simp only []
  rw [hchip]
  rw [mA.1, mB.1, mC.1]
  exact ⟨rfl, mA.2, mB.2, mC.2, rfl, hLI, hRI, hLD, hRD, hs1, hs2, hd1, hd2⟩

/-- Helper: feeding 0 keeps the interpolator zero. -/
theorem feed_zero (ip : Interpolator) (h : ip.Zero) : (ip.feed 0).Zero := by
  obtain ⟨h0, h1, h2, h3, c0, c1, c2⟩ := h
  unfold Interpolator.feed
  refine ⟨h1, h2, h3, rfl, ?_, ?_, ?_⟩ <;>
    simp only [h1, h2, h3] <;> norm_num

/-- Helper: a zero interpolator interpolates to 0 everywhere. -/
theorem interpolate_zero (ip : Interpolator) (h : ip.Zero) (x : ℚ) :
    ip.interpolate x = 0 := by
  obtain ⟨h0, h1, h2, h3, c0, c1, c2⟩ := h
  unfold Interpolator.interpolate
  rw [c0, c1, c2]
  ring

/-- Helper: updating an all-zero buffer with a zero sample keeps it
all-zero. -/
theorem buffer_update_zero (f : ℕ → ℚ) (hf : ∀ i, f i = 0) (a : ℕ) (v : ℚ)
    (hv : v = 0) : ∀ i, Function.update f a v i = 0 := by
  intro i
  rw [Function.update_apply]
  split
  · exact hv
  · exact hf i

/-- Helper: one oversampling iteration keeps a silent chip silent. -/
theorem renderStep_silent (start offset : ℕ) (p : PSG) (h : p.Silent) :
    (PSG.renderStep start offset p).Silent := by
  unfold PSG.renderStep
  simp only []
  split
  · have hts := renderTick_silent { p with x := p.x + p.step - 1 } h
    have ht2 := hts.1
    obtain ⟨hA, hB, hC, hchip, hLI, hRI, hLD, hRD, hs1, hs2, hd1, hd2⟩ := hts.2
    have h01 : ({ p with x := p.x + p.step - 1 } : PSG).renderTick.2.1 = (0 : ℚ) := by
      rw [ht2]
    have h02 : ({ p with x := p.x + p.step - 1 } : PSG).renderTick.2.2 = (0 : ℚ) := by
      rw [ht2]
    have hfL : (({ p with x := p.x + p.step - 1 } : PSG).renderTick.1.left_interpolator.feed
        ({ p with x := p.x + p.step - 1 } : PSG).renderTick.2.1).Zero := by
      rw [h01]
      exact feed_zero _ hLI
    have hfR : (({ p with x := p.x + p.step - 1 } : PSG).renderTick.1.right_interpolator.feed
        ({ p with x := p.x + p.step - 1 } : PSG).renderTick.2.2).Zero := by
      rw [h02]
      exact feed_zero _ hRI
    exact ⟨hA, hB, hC, hchip, hfL, hfR,
      buffer_update_zero _ hLD _ _ (interpolate_zero _ hfL _),
      buffer_update_zero _ hRD _ _ (interpolate_zero _ hfR _),
      hs1, hs2, hd1, hd2⟩
  · obtain ⟨hA, hB, hC, hchip, hLI, hRI, hLD, hRD, hs1, hs2, hd1, hd2⟩ := h
    exact ⟨hA, hB, hC, hchip, hLI, hRI,
      buffer_update_zero _ hLD _ _ (interpolate_zero _ hLI _),
      buffer_update_zero _ hRD _ _ (interpolate_zero _ hRI _),
      hs1, hs2, hd1, hd2⟩


/-- Helper: the oversampling loop keeps a silent chip silent. -/
theorem renderLoop_silent (start : ℕ) (l : List ℕ) (p : PSG) (h : p.Silent) :
    (PSG.renderLoop start p l).Silent := by
  induction l generalizing p with
  | nil => exact h
  | cons o rest ih => exact ih _ (renderStep_silent _ _ _ h)

/-- Helper: the FIR evaluated on an all-zero window returns 0 and keeps
the buffer all-zero. -/
theorem decimator_render_zero (d : Decimator) (hd : ∀ i, d.buffer i = 0) (start : ℕ) :
    (d.render start).2 = 0 ∧ ∀ i, (d.render start).1.buffer i = 0 := by
  constructor
  · unfold Decimator.render
    simp only [hd]
    norm_num
  · intro i
    unfold Decimator.render
    simp only []
    split
    · exact hd _
    · exact hd i

/-- Helper: the DC filter with zero state maps a zero frame to a zero
frame and keeps its state zero. -/
theorem dc_filter_render_zero (f : DCFilter) (h1 : f.left_sum = 0)
    (h2 : f.right_sum = 0) (h3 : ∀ i, f.left_delay i = 0) (h4 : ∀ i, f.right_delay i = 0) :
    (f.render 0 0).2 = (0, 0) ∧ (f.render 0 0).1.left_sum = 0 ∧
      (f.render 0 0).1.right_sum = 0 ∧ (∀ i, (f.render 0 0).1.left_delay i = 0) ∧
      (∀ i, (f.render 0 0).1.right_delay i = 0) := by
  unfold DCFilter.render
  simp only []
  refine ⟨?_, ?_, ?_, ?_, ?_⟩
  · show (0 - (f.left_sum + (-(f.left_delay f.index) + 0)) * (1 / (DC_SIZE : ℚ)),
      0 - (f.right_sum + (-(f.right_delay f.index) + 0)) * (1 / (DC_SIZE : ℚ))) = (0, 0)
    rw [h1, h2, h3, h4]
    norm_num
  · show f.left_sum + (-(f.left_delay f.index) + 0) = 0
    rw [h1, h3]
    norm_num
  · show f.right_sum + (-(f.right_delay f.index) + 0) = 0
    rw [h2, h4]
    norm_num
  · exact buffer_update_zero _ h3 _ _ rfl
  · exact buffer_update_zero _ h4 _ _ rfl

/-- Helper: a frame rendered from a silent chip is exactly `(0, 0)` and
leaves the chip silent. -/
theorem render_silent (p : PSG) (h : p.Silent) :
    p.render.2 = (0, 0) ∧ p.render.1.Silent := by
  unfold PSG.render
  simp only []
  have hp1 : PSG.Silent
      { p with decimator_index := (p.decimator_index + 1) % (FIR_SIZE / DECIMATE_FACTOR - 1) } := h
  have hp2 := renderLoop_silent (FIR_SIZE - p.decimator_index * DECIMATE_FACTOR)
    [7, 6, 5, 4, 3, 2, 1, 0] _ hp1
  obtain ⟨hA, hB, hC, hchip, hLI, hRI, hLD, hRD, hs1, hs2, hd1, hd2⟩ := hp2
  have hdl := decimator_render_zero _ hLD (FIR_SIZE - p.decimator_index * DECIMATE_FACTOR)
  have hdr := decimator_render_zero _ hRD (FIR_SIZE - p.decimator_index * DECIMATE_FACTOR)
  have hdc0 := dc_filter_render_zero _ hs1 hs2 hd1 hd2
  constructor
  · rw [hdl.1, hdr.1]
    exact hdc0.1
  · refine ⟨hA, hB, hC, hchip, hLI, hRI, hdl.2, hdr.2, ?_, ?_, ?_, ?_⟩
    · rw [hdl.1, hdr.1]
      exact hdc0.2.1
    · rw [hdl.1, hdr.1]
      exact hdc0.2.2.1
    · rw [hdl.1, hdr.1]
      exact hdc0.2.2.2.1
    · rw [hdl.1, hdr.1]
      exact hdc0.2.2.2.2

/-- The sequence of frames rendered by repeated `render()` calls:
`renderStream p n` is the state and output after the `(n+1)`-th frame. -/
def renderStream (p : PSG) : ℕ → PSG × (ℚ × ℚ)
  | 0 => p.render
  | n + 1 => (renderStream p n).1.render

/-- Helper: the freshly constructed chip is silent. -/
theorem psgInit_silent (st : ℚ) : (psgInit st).Silent :=
  ⟨⟨rfl, rfl, rfl, rfl⟩, ⟨rfl, rfl, rfl, rfl⟩, ⟨rfl, rfl, rfl, rfl⟩, rfl,
    ⟨rfl, rfl, rfl, rfl, rfl, rfl, rfl⟩, ⟨rfl, rfl, rfl, rfl, rfl, rfl, rfl⟩,
    fun _ => rfl, fun _ => rfl, rfl, rfl, fun _ => rfl, fun _ => rfl⟩

/-- Helper: every frame of a silent chip is `(0, 0)` and leaves it
silent. -/
theorem silent_stream (p : PSG) (h : p.Silent) :
    ∀ n, (renderStream p n).2 = (0, 0) ∧ (renderStream p n).1.Silent := by
  intro n
  induction n with
  | zero => exact ⟨(render_silent p h).1, (render_silent p h).2⟩
  | succ n ih => exact ⟨(render_silent _ ih.2).1, (render_silent _ ih.2).2⟩

/-- C7: `PSG::new(1_789_772.5, 44100)` succeeds, and rendering 44100
frames without any register write returns exactly `(0.0, 0.0)` for every
one of them. -/
theorem c7_silence :
    psgNew 1789772.5 44100 =
      Except.ok (psgInit ((1789772.5 : ℚ) /
        (((44100 : ℕ) : ℚ) * 8 * (DECIMATE_FACTOR : ℚ)))) ∧
    ∀ n, n < 44100 →
      (renderStream (psgInit ((1789772.5 : ℚ) /
        (((44100 : ℕ) : ℚ) * 8 * (DECIMATE_FACTOR : ℚ)))) n).2 = (0, 0) := by
  constructor
  · unfold psgNew
    rw [if_neg (by norm_num [DECIMATE_FACTOR])]
  · intro n _
    exact (silent_stream _ (psgInit_silent _) n).1

/-- Witness for C7 at the first frame. -/
theorem c7_silence_witness :
    (0 : ℕ) < 44100 ∧
    (renderStream (psgInit ((1789772.5 : ℚ) /
      (((44100 : ℕ) : ℚ) * 8 * (DECIMATE_FACTOR : ℚ)))) 0).2 = (0, 0) :=
  ⟨by norm_num, c7_silence.2 0 (by norm_num)⟩


/-- The DC filter's state invariant: the running sums equal the window
sums of their ring buffers, and the index is in range.  It holds for the
fresh filter and is preserved by every render, so it holds in every
reachable filter state. -/
def DCInv (f : DCFilter) : Prop :=
  f.index < 1024 ∧
  f.left_sum = (Finset.range 1024).sum (fun j => f.left_delay j) ∧
  f.right_sum = (Finset.range 1024).sum (fun j => f.right_delay j)

/-- Helper: the fresh DC filter satisfies the invariant. -/
theorem dcNew_inv : DCInv DCFilter.new := by
  refine ⟨by norm_num [DCFilter.new], ?_, ?_⟩ <;> simp [DCFilter.new]

/-- Helper: one render preserves the DC filter invariant. -/
theorem dc_render_inv (f : DCFilter) (h : DCInv f) (l r : ℚ) :
    DCInv (f.render l r).1 := by
  obtain ⟨hi, hl, hr⟩ := h
  have him : f.index ∈ Finset.range 1024 := Finset.mem_range.mpr hi
  refine ⟨?_, ?_, ?_⟩
  · show (f.index + 1) &&& (DC_SIZE - 1) < 1024
    have h2 : (f.index + 1) &&& (DC_SIZE - 1) ≤ DC_SIZE - 1 := Nat.and_le_right
    simp only [DC_SIZE] at h2 ⊢
    omega
  · show f.left_sum + (-(f.left_delay f.index) + l) =
      (Finset.range 1024).sum (fun j => Function.update f.left_delay f.index l j)
    rw [show (fun j => Function.update f.left_delay f.index l j) =
      Function.update f.left_delay f.index l from rfl]
    rw [Finset.sum_update_of_mem him, hl,
      Finset.sum_eq_sum_diff_singleton_add him (fun j => f.left_delay j)]
    ring
  · show f.right_sum + (-(f.right_delay f.index) + r) =
      (Finset.range 1024).sum (fun j => Function.update f.right_delay f.index r j)
    rw [show (fun j => Function.update f.right_delay f.index r j) =
      Function.update f.right_delay f.index r from rfl]
    rw [Finset.sum_update_of_mem him, hr,
      Finset.sum_eq_sum_diff_singleton_add him (fun j => f.right_delay j)]
    ring

/-- The filter state after `n` renders of the constant frame `(c, c)`. -/
def constIter (f : DCFilter) (c : ℚ) : ℕ → DCFilter
  | 0 => f
  | n + 1 => ((constIter f c n).render c c).1

/-- Helper: the invariant holds along a constant run. -/
theorem constIter_inv (f : DCFilter) (c : ℚ) (h : DCInv f) (n : ℕ) :
    DCInv (constIter f c n) := by
  induction n with
  | zero => exact h
  | succ n ih => exact dc_render_inv _ ih c c

/-- Helper: the AND-masked index advance is addition modulo 1024. -/
theorem and_1023_eq_mod (x : ℕ) : x &&& (DC_SIZE - 1) = x % 1024 := by
  show x &&& (2 ^ 10 - 1) = x % 2 ^ 10
  exact Nat.and_pow_two_sub_one_eq_mod x 10

/-- Helper: the index walks congruent residues along a constant run. -/
theorem constIter_index (f : DCFilter) (c : ℚ) (hi : f.index < 1024) (n : ℕ) :
    (constIter f c n).index = (f.index + n) % 1024 := by
  induction n with
  | zero =>
    show f.index = (f.index + 0) % 1024
    omega
  | succ n ih =>
    show ((constIter f c n).index + 1) &&& (DC_SIZE - 1) = (f.index + (n + 1)) % 1024
    rw [and_1023_eq_mod, ih]
    omega

/-- Helper: along a constant run, any position whose residue has already
been visited holds the constant. -/
theorem constIter_delay (f : DCFilter) (c : ℚ) (hi : f.index < 1024) (n : ℕ) :
    ∀ j, j < 1024 → (∃ t, t < n ∧ (f.index + t) % 1024 = j) →
      (constIter f c n).left_delay j = c ∧ (constIter f c n).right_delay j = c := by
  induction n with
  | zero =>
    intro j _ hex
    obtain ⟨t, ht, _⟩ := hex
    omega
  | succ n ih =>
    intro j hj hex
    obtain ⟨t, ht, hres⟩ := hex
    show (Function.update (constIter f c n).left_delay (constIter f c n).index c j = c) ∧
      (Function.update (constIter f c n).right_delay (constIter f c n).index c j = c)
    by_cases hcur : j = (constIter f c n).index
    · rw [hcur]
      constructor <;> rw [Function.update_same]
    · rw [Function.update_noteq hcur, Function.update_noteq hcur]
      apply ih j hj
      refine ⟨t, ?_, hres⟩
      rcases Nat.lt_or_ge t n with h | h
      · exact h
      · exfalso
        have htn : t = n := by omega
        apply hcur
        rw [← hres, htn, ← constIter_index f c hi n]

/-- Helper: after 1024 constant renders the whole ring buffer holds the
constant. -/
theorem constIter_saturated (f : DCFilter) (c : ℚ) (hi : f.index < 1024) :
    ∀ j, j < 1024 → (constIter f c 1024).left_delay j = c ∧
      (constIter f c 1024).right_delay j = c := by
  intro j hj
  apply constIter_delay f c hi 1024 j hj
  by_cases h : f.index ≤ j
  · exact ⟨j - f.index, by omega, by omega⟩
  · exact ⟨1024 + j - f.index, by omega, by omega⟩

/-- Helper: on a saturated filter a constant render returns exactly
`(0, 0)` and keeps it saturated. -/
theorem steady_render (g : DCFilter) (c : ℚ) (hg : DCInv g)
    (hsat : ∀ j, j < 1024 → g.left_delay j = c ∧ g.right_delay j = c) :
    (g.render c c).2 = (0, 0) ∧
      (∀ j, j < 1024 → (g.render c c).1.left_delay j = c ∧
        (g.render c c).1.right_delay j = c) := by
  obtain ⟨hi, hl, hr⟩ := hg
  have hsum_l : g.left_sum = 1024 * c := by
    rw [hl]
    rw [Finset.sum_congr rfl (fun j hj => (hsat j (Finset.mem_range.mp hj)).1)]
    rw [Finset.sum_const, Finset.card_range, nsmul_eq_mul]
    norm_num
  have hsum_r : g.right_sum = 1024 * c := by
    rw [hr]
    rw [Finset.sum_congr rfl (fun j hj => (hsat j (Finset.mem_range.mp hj)).2)]
    rw [Finset.sum_const, Finset.card_range, nsmul_eq_mul]
    norm_num
  constructor
  · show (c - (g.left_sum + (-(g.left_delay g.index) + c)) * (1 / (DC_SIZE : ℚ)),
      c - (g.right_sum + (-(g.right_delay g.index) + c)) * (1 / (DC_SIZE : ℚ))) = (0, 0)
    rw [hsum_l, hsum_r, (hsat g.index hi).1, (hsat g.index hi).2]
    simp only [Prod.mk.injEq]
    constructor <;> (norm_num [DC_SIZE]; try ring)
  · intro j hj
    show (Function.update g.left_delay g.index c j = c) ∧
      (Function.update g.right_delay g.index c j = c)
    constructor <;> rw [Function.update_apply] <;> split
    · rfl
    · exact (hsat j hj).1
    · rfl
    · exact (hsat j hj).2

/-- Helper: splitting a constant run. -/
theorem constIter_add (f : DCFilter) (c : ℚ) (a b : ℕ) :
    constIter f c (a + b) = constIter (constIter f c a) c b := by
  induction b with
  | zero => rfl
  | succ b ih =>
    show ((constIter f c (a + b)).render c c).1 = ((constIter (constIter f c a) c b).render c c).1
    rw [ih]


/-- The filter state after feeding the first `n` frames of the input
stream `ins` to a fresh DC filter. -/
def runDC (ins : ℕ → ℚ × ℚ) : ℕ → DCFilter
  | 0 => DCFilter.new
  | n + 1 => ((runDC ins n).render (ins n).1 (ins n).2).1

/-- The sample fed `t` steps before the present, `0` before the start of
the stream: after `n` inputs of the channel `w`, `recentW w n t` is the
`(t+1)`-th most recent input. -/
def recentW (w : ℕ → ℚ) (n t : ℕ) : ℚ :=
  if t < n then w (n - 1 - t) else 0

/-- The ring-buffer contents after `n` renders: position `j` holds the
input from the latest step congruent to `j` modulo 1024, or `0` if that
position has not been written yet. -/
def delCharW (w : ℕ → ℚ) (n j : ℕ) : ℚ :=
  if j < n % 1024 then w (n - n % 1024 + j)
  else if 1024 ≤ n - n % 1024 + j then w (n - n % 1024 + j - 1024)
  else 0

/-- Helper: shifting the recency index by one step. -/
theorem recentW_succ (w : ℕ → ℚ) (n t : ℕ) :
    recentW w (n + 1) (t + 1) = recentW w n t := by
  unfold recentW
  split_ifs <;> first | (exfalso; omega) | (apply congrArg; omega) | norm_num

/-- Helper: the most recent sample after one more step is the new input. -/
theorem recentW_succ_zero (w : ℕ → ℚ) (n : ℕ) : recentW w (n + 1) 0 = w n := by
  unfold recentW
  split_ifs <;> first | (exfalso; omega) | (apply congrArg; omega) | norm_num

/-- Helper: the position about to be overwritten holds the sample from
1024 steps ago. -/
theorem delCharW_at_index (w : ℕ → ℚ) (n : ℕ) :
    delCharW w n (n % 1024) = recentW w n 1023 := by
  unfold delCharW recentW
  split_ifs <;> first | (exfalso; omega) | (apply congrArg; omega) | norm_num

/-- Helper: after the write, the written position holds the new input. -/
theorem delCharW_succ_index (w : ℕ → ℚ) (n : ℕ) :
    delCharW w (n + 1) (n % 1024) = w n := by
  unfold delCharW
  split_ifs <;> first | (exfalso; omega) | (apply congrArg; omega) | norm_num

/-- Helper: all other positions are unchanged by the write. -/
theorem delCharW_succ_ne (w : ℕ → ℚ) (n j : ℕ) (hj : j < 1024)
    (hne : j ≠ n % 1024) : delCharW w (n + 1) j = delCharW w n j := by
  unfold delCharW
  split_ifs <;> first | (exfalso; omega) | (apply congrArg; omega) | norm_num

/-- Helper: the window sum after one more input. -/
theorem sum_recentW_succ (w : ℕ → ℚ) (n : ℕ) :
    (Finset.range 1024).sum (recentW w (n + 1)) =
      w n + (Finset.range 1024).sum (recentW w n) - recentW w n 1023 := by
  have h1 := Finset.sum_range_succ' (recentW w (n + 1)) 1023
  have h2 := Finset.sum_range_succ (recentW w n) 1023
  rw [show (1023 + 1) = 1024 from rfl] at h1 h2
  rw [h1, h2]
  rw [Finset.sum_congr rfl (fun t _ => recentW_succ w n t), recentW_succ_zero]
  ring

/-- Helper: the full characterization of a fresh-start DC filter run:
index, running sums and ring buffers after `n` frames. -/
theorem runDC_spec (ins : ℕ → ℚ × ℚ) (n : ℕ) :
    (runDC ins n).index = n % 1024 ∧
    (runDC ins n).left_sum =
      (Finset.range 1024).sum (recentW (fun m => (ins m).1) n) ∧
    (runDC ins n).right_sum =
      (Finset.range 1024).sum (recentW (fun m => (ins m).2) n) ∧
    (∀ j, j < 1024 → (runDC ins n).left_delay j = delCharW (fun m => (ins m).1) n j) ∧
    (∀ j, j < 1024 → (runDC ins n).right_delay j = delCharW (fun m => (ins m).2) n j) := by
  induction n with
  | zero =>
    refine ⟨rfl, ?_, ?_, ?_, ?_⟩
    · show (0 : ℚ) = (Finset.range 1024).sum (recentW (fun m => (ins m).1) 0)
      rw [Finset.sum_congr rfl (fun t _ => show recentW (fun m => (ins m).1) 0 t = 0 by
        unfold recentW
        rw [if_neg (by omega)])]
      simp
    · show (0 : ℚ) = (Finset.range 1024).sum (recentW (fun m => (ins m).2) 0)
      rw [Finset.sum_congr rfl (fun t _ => show recentW (fun m => (ins m).2) 0 t = 0 by
        unfold recentW
        rw [if_neg (by omega)])]
      simp
    · intro j hj
      show (0 : ℚ) = delCharW (fun m => (ins m).1) 0 j
      unfold delCharW
      rw [if_neg (by omega), if_neg (by omega)]
    · intro j hj
      show (0 : ℚ) = delCharW (fun m => (ins m).2) 0 j
      unfold delCharW
      rw [if_neg (by omega), if_neg (by omega)]
  | succ n ih =>
    obtain ⟨hidx, hsl, hsr, hdl, hdr⟩ := ih
    have hlt : n % 1024 < 1024 := Nat.mod_lt _ (by norm_num)
    have hdli : (runDC ins n).left_delay (runDC ins n).index =
        recentW (fun m => (ins m).1) n 1023 := by
      rw [hidx, hdl _ hlt, delCharW_at_index]
    have hdri : (runDC ins n).right_delay (runDC ins n).index =
        recentW (fun m => (ins m).2) n 1023 := by
      rw [hidx, hdr _ hlt, delCharW_at_index]
    refine ⟨?_, ?_, ?_, ?_, ?_⟩
    · show ((runDC ins n).index + 1) &&& (DC_SIZE - 1) = (n + 1) % 1024
      rw [and_1023_eq_mod, hidx]
      omega
    · show (runDC ins n).left_sum + (-((runDC ins n).left_delay (runDC ins n).index) +
          (ins n).1) = (Finset.range 1024).sum (recentW (fun m => (ins m).1) (n + 1))
      rw [hsl, hdli, sum_recentW_succ]
      ring
    · show (runDC ins n).right_sum + (-((runDC ins n).right_delay (runDC ins n).index) +
          (ins n).2) = (Finset.range 1024).sum (recentW (fun m => (ins m).2) (n + 1))
      rw [hsr, hdri, sum_recentW_succ]
      ring
    · intro j hj
      show Function.update (runDC ins n).left_delay (runDC ins n).index (ins n).1 j =
        delCharW (fun m => (ins m).1) (n + 1) j
      by_cases hji : j = (runDC ins n).index
      · rw [hji, Function.update_same, hidx, delCharW_succ_index]
      · rw [Function.update_noteq hji, hdl _ hj, delCharW_succ_ne]
        · exact hj
        · rw [← hidx]
          exact hji
    · intro j hj
      show Function.update (runDC ins n).right_delay (runDC ins n).index (ins n).2 j =
        delCharW (fun m => (ins m).2) (n + 1) j
      by_cases hji : j = (runDC ins n).index
      · rw [hji, Function.update_same, hidx, delCharW_succ_index]
      · rw [Function.update_noteq hji, hdr _ hj, delCharW_succ_ne]
        · exact hj
        · rw [← hidx]
          exact hji


/-- Helper: once saturated with the constant, every further constant
render returns `(0, 0)`. -/
theorem steady_forever (g : DCFilter) (c : ℚ) (hg : DCInv g)
    (hsat : ∀ j, j < 1024 → g.left_delay j = c ∧ g.right_delay j = c) (m : ℕ) :
    ((constIter g c m).render c c).2 = (0, 0) := by
  induction m generalizing g with
  | zero => exact (steady_render g c hg hsat).1
  | succ m ih =>
    rw [show m + 1 = 1 + m by omega, constIter_add]
    exact ih _ (dc_render_inv _ hg _ _) (steady_render g c hg hsat).2

/-- C9: the DC filter is an exact moving-average high-pass.  First part:
for every input stream fed from the fresh filter, the `(n+1)`-th render
returns, per channel, the input minus the average of the 1024 most recent
inputs (including the current one, older slots counting as 0).  Second
part: from any filter state satisfying the reachability invariant `DCInv`
(which holds in every state reachable from `DCFilter::new`), after 1024
consecutive renders of the constant frame `(c, c)`, every subsequent
render returns exactly `(0, 0)`. -/
theorem c9_dc_filter (ins : ℕ → ℚ × ℚ) (n : ℕ) (f : DCFilter) (c : ℚ)
    (hf : DCInv f) (k : ℕ) (hk : 1024 ≤ k) :
    ((runDC ins n).render (ins n).1 (ins n).2).2 =
      ((ins n).1 - (Finset.range 1024).sum (recentW (fun m => (ins m).1) (n + 1)) / 1024,
       (ins n).2 - (Finset.range 1024).sum (recentW (fun m => (ins m).2) (n + 1)) / 1024) ∧
    ((constIter f c k).render c c).2 = (0, 0) := by
  constructor
  · obtain ⟨hidx, hsl, hsr, hdl, hdr⟩ := runDC_spec ins n
    have hlt : n % 1024 < 1024 := Nat.mod_lt _ (by norm_num)
    have hdli : (runDC ins n).left_delay (runDC ins n).index =
        recentW (fun m => (ins m).1) n 1023 := by
      rw [hidx, hdl _ hlt, delCharW_at_index]
    have hdri : (runDC ins n).right_delay (runDC ins n).index =
        recentW (fun m => (ins m).2) n 1023 := by
      rw [hidx, hdr _ hlt, delCharW_at_index]
    show ((ins n).1 - ((runDC ins n).left_sum +
        (-((runDC ins n).left_delay (runDC ins n).index) + (ins n).1)) * (1 / (DC_SIZE : ℚ)),
      (ins n).2 - ((runDC ins n).right_sum +
        (-((runDC ins n).right_delay (runDC ins n).index) + (ins n).2)) * (1 / (DC_SIZE : ℚ))) = _
    rw [hsl, hsr, hdli, hdri, sum_recentW_succ, sum_recentW_succ]
    simp only [Prod.mk.injEq]
    constructor <;> (norm_num [DC_SIZE]; ring)
  · have hk' : k = 1024 + (k - 1024) := by omega
    rw [hk', constIter_add]
    exact steady_forever (constIter f c 1024) c (constIter_inv f c hf 1024)
      (constIter_saturated f c hf.1) (k - 1024)

/-- Witness for C9: the first frame of the constant stream `(1, 2)` and a
constant run of `(1, 1)` from the fresh filter. -/
theorem c9_dc_filter_witness :
    ((runDC (fun _ => ((1 : ℚ), (2 : ℚ))) 0).render 1 2).2 =
      (1 - (Finset.range 1024).sum (recentW (fun _ => (1 : ℚ)) 1) / 1024,
       2 - (Finset.range 1024).sum (recentW (fun _ => (2 : ℚ)) 1) / 1024) ∧
    ((constIter DCFilter.new 1 1024).render 1 1).2 = (0, 0) :=
  c9_dc_filter (fun _ => (1, 2)) 0 DCFilter.new 1 dcNew_inv 1024 (le_refl 1024)

end Claims

end PsgSpec
